import Mathlib

/-!
UnityApplePencil: the shared circular event buffer of `iOSApplePencil.hpp`

A shallow embedding of `ApplePencilManager` and of the exported C entry points, followed by
theorems about the append path, the flush protocol, registration and the `buttons` bit layout.

Modelling conventions

* `int` members (`bufferLength`, `bufferOffset`, `lastNotifiedOffset`) are `Int`; every `int`
  arithmetic result goes through `wrapInt`, the two's complement reduction to 32 bits.  A machine
  state has these members inside `[INT_MIN, INT_MAX]`; theorems that need it say so.
* `unsigned short` / `unsigned int` values are `Nat`; a store into the `unsigned short` member
  `buttons` truncates with `u16`.
* `float` values are never computed with, only copied, so a `float` is its bit pattern (`CFloat`);
  the integer literal `0` converts to `CFloat.zero`.
* A pointer is `Option Nat`: `none` is `NULL`, `some p` names the allocation `p`.  The memory the
  consumer owns is `mem p i`, record `i` of allocation `p`; bounds of the allocation are not
  modelled.
* The callback is foreign code: an invocation is recorded in the trace and is assumed not to touch
  the manager or the buffer.
-/

namespace UnityApplePencil

/-! ## Machine values -/

/-- Smallest value of a 32-bit `int`. -/
def INT_MIN : Int := -2147483648

/-- Largest value of a 32-bit `int`. -/
def INT_MAX : Int := 2147483647

/-- Reduction of a mathematical integer to the 32-bit two's complement `int` it is stored as. -/
def wrapInt (x : Int) : Int := (x + 2147483648) % 4294967296 - 2147483648

/-- Conversion to `unsigned short`: reduction modulo `2^16`. -/
def u16 (x : Nat) : Nat := x % 65536

/-- A `float`, represented by its IEEE-754 binary32 bit pattern. -/
structure CFloat where
  bits : Nat
deriving DecidableEq, Repr

/-- The `float` obtained from the integer literal `0` (positive zero, all bits clear). -/
def CFloat.zero : CFloat := ⟨0⟩

/-! ## Data model -/

/-- The packed record `ApplePencilState` (source lines 45-55). -/
structure ApplePencilState where
  positionX : CFloat
  positionY : CFloat
  pressure : CFloat
  tiltX : CFloat
  tiltY : CFloat
  buttons : Nat
  estimationUpdateIndex : Nat
  padding1 : CFloat
  padding2 : Nat
deriving DecidableEq, Repr

/-- The static members of `class ApplePencilManager` (source lines 62-71). -/
structure ApplePencilManager where
  handler : Option Nat
  buffer : Option Nat
  bufferLength : Int
  bufferOffset : Int
  lastNotifiedOffset : Int
deriving DecidableEq, Repr

/-- The static initializers (source lines 130-134). -/
def ApplePencilManager.init : ApplePencilManager :=
  { handler := none, buffer := none, bufferLength := 0, bufferOffset := 0,
    lastNotifiedOffset := 0 }

/-- Observable actions of the code on its collaborators, in program order. -/
inductive Event where
  | deref (buffer : Nat) (slot : Int)
  | callback (fn : Nat) (offset : Int) (numEvents : Int)
deriving DecidableEq, Repr

/-- Whole program state: the statics, the consumer-owned memory, and the actions so far.
`deref p i` stands for the run of member accesses `buffer[i].f` of one append call;
`callback f o n` stands for the call `handler(o, n)` through the function pointer `f`. -/
structure Machine where
  mgr : ApplePencilManager
  mem : Nat → Int → ApplePencilState
  trace : List Event

/-- Memory after record `i` of allocation `p` has been replaced by `r`. -/
def storeRecord (mem : Nat → Int → ApplePencilState) (p : Nat) (i : Int)
    (r : ApplePencilState) : Nat → Int → ApplePencilState :=
  fun q j => if q = p ∧ j = i then r else mem q j

/-- The argument list of `AddApplePencilEvent` (source lines 74-76). -/
structure SampleArgs where
  positionX : CFloat
  positionY : CFloat
  tip : Bool
  pressure : CFloat
  tiltX : CFloat
  tiltY : CFloat
  estimatedPropertiesExpectingUpdates : Nat
  estimationUpdateIndex : Nat
  isEstimationUpdate : Bool
  isPredicted : Bool
deriving DecidableEq, Repr

/-! ## The code -/

/-- Source lines 79-88: the member assignments of `AddApplePencilEvent`, applied in order to the
record `buffer[bufferOffset]`. -/
def writeSample (a : SampleArgs) (slot : ApplePencilState) : ApplePencilState :=
  let slot := { slot with positionX := a.positionX }
  let slot := { slot with positionY := a.positionY }
  let slot := { slot with estimationUpdateIndex := a.estimationUpdateIndex }
  let slot := { slot with buttons := u16 (if a.tip then 1 else 0) }
  let slot := { slot with
    buttons := u16 (slot.buttons ||| ((a.estimatedPropertiesExpectingUpdates &&& 0xf) <<< 1)) }
  let slot := { slot with buttons := u16 (slot.buttons ||| (a.isEstimationUpdate.toNat <<< (1 + 4))) }
  let slot := { slot with buttons := u16 (slot.buttons ||| (a.isPredicted.toNat <<< (2 + 4))) }
  let slot := { slot with pressure := a.pressure }
  let slot := { slot with tiltX := a.tiltX }
  { slot with tiltY := a.tiltY }

/-- Source lines 97-103: the member assignments of `AddApplePencilBarrelTapEvent`. -/
def writeBarrelTap (slot : ApplePencilState) : ApplePencilState :=
  let slot := { slot with positionX := CFloat.zero }
  let slot := { slot with positionY := CFloat.zero }
  let slot := { slot with estimationUpdateIndex := 0 }
  let slot := { slot with buttons := u16 (1 <<< (3 + 4)) }
  let slot := { slot with pressure := CFloat.zero }
  let slot := { slot with tiltX := CFloat.zero }
  { slot with tiltY := CFloat.zero }

/-- Source lines 89-91 / 104-106: `bufferOffset ++; if (bufferOffset >= bufferLength)
bufferOffset = 0;`. -/
def advanceOffset (bufferOffset bufferLength : Int) : Int :=
  let bufferOffset := wrapInt (bufferOffset + 1)
  if bufferOffset ≥ bufferLength then 0 else bufferOffset

/-- `ApplePencilManager::AddApplePencilEvent` (source lines 74-92). -/
def ApplePencilManager.AddApplePencilEvent (a : SampleArgs) (m : Machine) : Machine :=
  match m.mgr.buffer with
  | none => m
  | some buffer =>
    if m.mgr.bufferLength = 0 then m
    else
      { mgr := { m.mgr with bufferOffset := advanceOffset m.mgr.bufferOffset m.mgr.bufferLength }
        mem := storeRecord m.mem buffer m.mgr.bufferOffset
          (writeSample a (m.mem buffer m.mgr.bufferOffset))
        trace := m.trace ++ [Event.deref buffer m.mgr.bufferOffset] }

/-- `ApplePencilManager::AddApplePencilBarrelTapEvent` (source lines 94-107). -/
def ApplePencilManager.AddApplePencilBarrelTapEvent (m : Machine) : Machine :=
  match m.mgr.buffer with
  | none => m
  | some buffer =>
    if m.mgr.bufferLength = 0 then m
    else
      { mgr := { m.mgr with bufferOffset := advanceOffset m.mgr.bufferOffset m.mgr.bufferLength }
        mem := storeRecord m.mem buffer m.mgr.bufferOffset
          (writeBarrelTap (m.mem buffer m.mgr.bufferOffset))
        trace := m.trace ++ [Event.deref buffer m.mgr.bufferOffset] }

/-- Source lines 115-121: the pending count, in `int` arithmetic. -/
def pendingCount (bufferLength bufferOffset lastNotifiedOffset : Int) : Int :=
  if bufferOffset > lastNotifiedOffset then
    wrapInt (bufferOffset - lastNotifiedOffset)
  else
    let numEvents := wrapInt (bufferLength - lastNotifiedOffset)
    wrapInt (numEvents + bufferOffset)

/-- `ApplePencilManager::FlushApplePencilEvents` (source lines 110-125). -/
def ApplePencilManager.FlushApplePencilEvents (m : Machine) : Machine :=
  match m.mgr.buffer, m.mgr.handler with
  | some _, some handler =>
    if m.mgr.bufferOffset = m.mgr.lastNotifiedOffset then m
    else
      { mgr := { m.mgr with lastNotifiedOffset := m.mgr.bufferOffset }
        mem := m.mem
        trace := m.trace ++ [Event.callback handler m.mgr.lastNotifiedOffset
          (pendingCount m.mgr.bufferLength m.mgr.bufferOffset m.mgr.lastNotifiedOffset)] }
  | _, _ => m

/-- The exported `SetApplePencilEventHandler` (source lines 140-147). -/
def SetApplePencilEventHandler (handler : Option Nat) (buffer : Option Nat) (bufferLength : Int)
    (m : Machine) : Machine :=
  { m with mgr := { handler := handler, buffer := buffer, bufferLength := bufferLength,
                    bufferOffset := 0, lastNotifiedOffset := 0 } }

/-- The exported `UnsetApplePencilEventHandler` (source lines 150-156). -/
def UnsetApplePencilEventHandler (m : Machine) : Machine :=
  { m with mgr := { handler := none, buffer := none, bufferLength := 0,
                    bufferOffset := 0, lastNotifiedOffset := 0 } }

/-- The exported `ApplePencilHandlerIsEnabled` (source lines 158-160). -/
def ApplePencilHandlerIsEnabled (m : Machine) : Bool :=
  m.mgr.handler != none

/-- The exported `AddApplePencilEvent` (source lines 163-168). -/
def AddApplePencilEvent (a : SampleArgs) (m : Machine) : Machine :=
  ApplePencilManager.AddApplePencilEvent a m

/-- The exported `AddApplePencilBarrelTapEvent` (source lines 171-173). -/
def AddApplePencilBarrelTapEvent (m : Machine) : Machine :=
  ApplePencilManager.AddApplePencilBarrelTapEvent m

/-- The exported `FlushApplePencilEvents` (source lines 176-178). -/
def FlushApplePencilEvents (m : Machine) : Machine :=
  ApplePencilManager.FlushApplePencilEvents m

/-! ## Call sequences -/

/-- One call of an append entry point. -/
inductive Append where
  | sample (a : SampleArgs)
  | barrelTap
deriving DecidableEq, Repr

/-- One call of a producer-side entry point. -/
inductive Op where
  | append (a : Append)
  | flush
deriving DecidableEq, Repr

/-- Effect of one append call. -/
def Append.run : Append → Machine → Machine
  | Append.sample a, m => AddApplePencilEvent a m
  | Append.barrelTap, m => AddApplePencilBarrelTapEvent m

/-- Effect of a sequence of append calls, first call first. -/
def runAppends : List Append → Machine → Machine
  | [], m => m
  | a :: rest, m => runAppends rest (a.run m)

/-- Effect of one producer-side call. -/
def Op.run : Op → Machine → Machine
  | Op.append a, m => a.run m
  | Op.flush, m => FlushApplePencilEvents m

/-- Effect of a sequence of producer-side calls, first call first. -/
def runOps : List Op → Machine → Machine
  | [], m => m
  | o :: rest, m => runOps rest (o.run m)

/-- The member assignments one append call performs on the record it writes. -/
def Append.write : Append → ApplePencilState → ApplePencilState
  | Append.sample a, slot => writeSample a slot
  | Append.barrelTap, slot => writeBarrelTap slot

/-! ## The record layout as the specification words it -/

/-- The members of a record that carry meaning: all but the two reserved padding members. -/
structure Payload where
  positionX : CFloat
  positionY : CFloat
  pressure : CFloat
  tiltX : CFloat
  tiltY : CFloat
  buttons : Nat
  estimationUpdateIndex : Nat
deriving DecidableEq, Repr

/-- The meaningful members of a stored record. -/
def ApplePencilState.payload (r : ApplePencilState) : Payload :=
  { positionX := r.positionX, positionY := r.positionY, pressure := r.pressure,
    tiltX := r.tiltX, tiltY := r.tiltY, buttons := r.buttons,
    estimationUpdateIndex := r.estimationUpdateIndex }

/-- Specification of the `buttons` layout: bit 0 tip, bits 1-4 the pending-estimate count,
bit 5 estimation update, bit 6 predicted. -/
def packedButtons (tip : Bool) (count : Nat) (isEstimationUpdate isPredicted : Bool) : Nat :=
  tip.toNat + 2 * count + 32 * isEstimationUpdate.toNat + 64 * isPredicted.toNat

/-- Specification of the record an append call contributes: a sample carries its arguments with
`buttons` packed per the layout (the count reduced to its four bits); a barrel tap carries only
bit 7 of `buttons`, every other member zero. -/
def Append.payload : Append → Payload
  | Append.sample a =>
    { positionX := a.positionX, positionY := a.positionY, pressure := a.pressure,
      tiltX := a.tiltX, tiltY := a.tiltY,
      buttons := packedButtons a.tip (a.estimatedPropertiesExpectingUpdates % 16)
        a.isEstimationUpdate a.isPredicted,
      estimationUpdateIndex := a.estimationUpdateIndex }
  | Append.barrelTap =>
    { positionX := CFloat.zero, positionY := CFloat.zero, pressure := CFloat.zero,
      tiltX := CFloat.zero, tiltY := CFloat.zero, buttons := 128, estimationUpdateIndex := 0 }

/-- Decoder of the layout: bit 0, the tip-contact flag. -/
def buttonsTip (buttons : Nat) : Bool := buttons.testBit 0

/-- Decoder of the layout: bits 1-4 read as a number, the pending-estimate count. -/
def buttonsPendingCount (buttons : Nat) : Nat := (buttons >>> 1) &&& 0xf

/-- Decoder of the layout: bit 5, the estimation-update flag. -/
def buttonsIsEstimationUpdate (buttons : Nat) : Bool := buttons.testBit 5

/-- Decoder of the layout: bit 6, the predicted flag. -/
def buttonsIsPredicted (buttons : Nat) : Bool := buttons.testBit 6

/-- Decoder of the layout: bit 7, the barrel-tap flag. -/
def buttonsIsBarrelTap (buttons : Nat) : Bool := buttons.testBit 7

/-- Handler invocations recorded in a trace, oldest first, as `(offset, numEvents)`. -/
def callbacks : List Event → List (Int × Int)
  | [] => []
  | Event.deref _ _ :: rest => callbacks rest
  | Event.callback _ o n :: rest => (o, n) :: callbacks rest

/-! ## Sample data for instantiating the theorems -/

/-- A record with every member zero. -/
def zeroRecord : ApplePencilState :=
  { positionX := CFloat.zero, positionY := CFloat.zero, pressure := CFloat.zero,
    tiltX := CFloat.zero, tiltY := CFloat.zero, buttons := 0, estimationUpdateIndex := 0,
    padding1 := CFloat.zero, padding2 := 0 }

/-- A record whose every member is nonzero (stale content of a reused buffer). -/
def staleRecord : ApplePencilState :=
  { positionX := ⟨11⟩, positionY := ⟨12⟩, pressure := ⟨13⟩, tiltX := ⟨14⟩, tiltY := ⟨15⟩,
    buttons := 255, estimationUpdateIndex := 77, padding1 := ⟨16⟩, padding2 := 17 }

/-- A sample with tip down, three pending estimates, predicted. -/
def sampleA : SampleArgs :=
  { positionX := ⟨1⟩, positionY := ⟨2⟩, tip := true, pressure := ⟨3⟩, tiltX := ⟨4⟩,
    tiltY := ⟨5⟩, estimatedPropertiesExpectingUpdates := 3, estimationUpdateIndex := 9,
    isEstimationUpdate := false, isPredicted := true }

/-- A machine whose statics are `g`, over memory filled with `staleRecord`, with empty trace. -/
def staleMachine (g : ApplePencilManager) : Machine :=
  { mgr := g, mem := fun _ _ => staleRecord, trace := [] }

/-- A machine whose statics are `g`, over zero-filled memory, with empty trace. -/
def zeroMachine (g : ApplePencilManager) : Machine :=
  { mgr := g, mem := fun _ _ => zeroRecord, trace := [] }

/-- Membership in the range of `int`. -/
def fitsInt (x : Int) : Prop := INT_MIN ≤ x ∧ x ≤ INT_MAX

/-- Statics with a buffer and a handler installed, length 4, write cursor wrapped to 1 while the
notified cursor is still 3. -/
def wrappedStatics : ApplePencilManager :=
  { handler := some 1, buffer := some 0, bufferLength := 4, bufferOffset := 1,
    lastNotifiedOffset := 3 }

/-- Statics with a buffer and a handler installed, length 4, both cursors at the last slot. -/
def lastSlotStatics : ApplePencilManager :=
  { handler := some 1, buffer := some 0, bufferLength := 4, bufferOffset := 3,
    lastNotifiedOffset := 3 }

/-- Statics as `SetApplePencilEventHandler(h, b, -1)` leaves them: a buffer and a handler
installed with a negative length. -/
def negativeLengthStatics : ApplePencilManager :=
  { handler := some 1, buffer := some 0, bufferLength := -1, bufferOffset := 0,
    lastNotifiedOffset := 0 }

/-- Statics with a handler and a buffer installed but length 0. -/
def zeroLengthStatics : ApplePencilManager :=
  { handler := some 1, buffer := some 0, bufferLength := 0, bufferOffset := 0,
    lastNotifiedOffset := 0 }

/-- Statics as `SetApplePencilEventHandler(h, b, 1)` leaves them: a one-record buffer. -/
def singleSlotStatics : ApplePencilManager :=
  { handler := some 1, buffer := some 0, bufferLength := 1, bufferOffset := 0,
    lastNotifiedOffset := 0 }

/-- Four appends on a length-4 buffer at rest in its last slot. -/
def fourAppends : List Append :=
  [Append.sample sampleA, Append.barrelTap, Append.barrelTap, Append.sample sampleA]

/-- A sample followed by a barrel tap. -/
def sampleThenTap : List Append := [Append.sample sampleA, Append.barrelTap]

/-- Three appends, one more than the capacity 2. -/
def threeAppends : List Append := [Append.barrelTap, Append.sample sampleA, Append.barrelTap]

/-- Slot accesses recorded in a trace, oldest first, as `(allocation, slot)`. -/
def derefs : List Event → List (Nat × Int)
  | [] => []
  | Event.deref p i :: rest => (p, i) :: derefs rest
  | Event.callback _ _ _ :: rest => derefs rest

/-- Cursor invariant of a registration with capacity `C`: the length is `C` and both cursors lie
in `[0, C)`. -/
def cursorsInRange (C : Int) (g : ApplePencilManager) : Prop :=
  g.bufferLength = C ∧ 0 ≤ g.bufferOffset ∧ g.bufferOffset < C
    ∧ 0 ≤ g.lastNotifiedOffset ∧ g.lastNotifiedOffset < C

/-- A list of notifications `(start, count)` on a ring of capacity `C` is contiguous from `start`:
the first one begins at `start`, every span is inside the ring, nonempty and shorter than the
ring, and each next one begins where the previous one ended, modulo `C`. -/
def contiguousFrom (C : Int) : Int → List (Int × Int) → Prop
  | _, [] => True
  | start, (o, c) :: rest =>
    o = start ∧ 0 ≤ o ∧ o < C ∧ 1 ≤ c ∧ c ≤ C - 1 ∧ contiguousFrom C ((o + c) % C) rest

/-- First half of the capacity-4 scenario: three samples, then a flush. -/
def scenarioFirst (A B C : SampleArgs) : List Op :=
  [Op.append (Append.sample A), Op.append (Append.sample B), Op.append (Append.sample C),
    Op.flush]

/-- Second half of the capacity-4 scenario: one sample, a barrel tap, then a flush. -/
def scenarioSecond (D : SampleArgs) : List Op :=
  [Op.append (Append.sample D), Op.append Append.barrelTap, Op.flush]

/-- A second sample, with a pending-estimate count that does not fit four bits. -/
def sampleB : SampleArgs :=
  { positionX := ⟨21⟩, positionY := ⟨22⟩, tip := false, pressure := ⟨23⟩, tiltX := ⟨24⟩,
    tiltY := ⟨25⟩, estimatedPropertiesExpectingUpdates := 4294967295,
    estimationUpdateIndex := 4, isEstimationUpdate := true, isPredicted := false }

/-- Statics as `SetApplePencilEventHandler(NULL, b, 4)` leaves them: a buffer installed without a
handler. -/
def noHandlerStatics : ApplePencilManager :=
  { handler := none, buffer := some 0, bufferLength := 4, bufferOffset := 0,
    lastNotifiedOffset := 0 }

/-- A run on a capacity-3 ring: two appends, flush, two appends (wrapping), flush, a redundant
flush, one append, flush. -/
def mixedRun : List Op :=
  [Op.append (Append.sample sampleA), Op.append Append.barrelTap, Op.flush,
    Op.append (Append.sample sampleB), Op.append Append.barrelTap, Op.flush, Op.flush,
    Op.append Append.barrelTap, Op.flush]

/-- Six appends: one and a half laps of a length-4 buffer. -/
def sixAppends : List Append :=
  [Append.sample sampleA, Append.barrelTap, Append.sample sampleB, Append.barrelTap,
    Append.sample sampleA, Append.barrelTap]

/-! ## Basic facts -/

theorem wrapInt_eq (x : Int) (h1 : INT_MIN ≤ x) (h2 : x ≤ INT_MAX) : wrapInt x = x := by
  unfold wrapInt
  unfold INT_MIN at h1
  unfold INT_MAX at h2
  omega

theorem advanceOffset_eq (w C : Int) (hw : 0 ≤ w) (hwC : w < C) (hC : C ≤ INT_MAX) :
    advanceOffset w C = if w + 1 < C then w + 1 else 0 := by
  have hC2 : C ≤ 2147483647 := hC
  have h : wrapInt (w + 1) = w + 1 := wrapInt_eq _ (by unfold INT_MIN; omega) (by unfold INT_MAX; omega)
  unfold advanceOffset
  simp only [h]
  split <;> split <;> omega

theorem emod_lt_two (x C : Int) (h0 : 0 ≤ x) (h2 : x < C + C) :
    x % C = if x < C then x else x - C := by
  split
  · exact Int.emod_eq_of_lt h0 (by assumption)
  · have : x = (x - C) + C := by omega
    rw [this, Int.add_emod_self]
    have h3 : (x - C) % C = x - C := Int.emod_eq_of_lt (by omega) (by omega)
    rw [h3]
    omega

theorem advanceOffset_emod (w C : Int) (hw : 0 ≤ w) (hwC : w < C) (hC : C ≤ INT_MAX) :
    advanceOffset w C = (w + 1) % C := by
  rw [advanceOffset_eq w C hw hwC hC, emod_lt_two (w + 1) C (by omega) (by omega)]
  split <;> omega

theorem writeSample_buttons (a : SampleArgs) (r : ApplePencilState) :
    (writeSample a r).buttons = packedButtons a.tip (a.estimatedPropertiesExpectingUpdates % 16)
      a.isEstimationUpdate a.isPredicted := by
  have hm : a.estimatedPropertiesExpectingUpdates &&& 0xf
      = a.estimatedPropertiesExpectingUpdates % 16 :=
    Nat.and_pow_two_sub_one_eq_mod a.estimatedPropertiesExpectingUpdates 4
  have hlt : a.estimatedPropertiesExpectingUpdates % 16 < 16 := Nat.mod_lt _ (by decide)
  simp only [writeSample, hm, packedButtons, u16]
  generalize a.estimatedPropertiesExpectingUpdates % 16 = n at hlt
  generalize a.tip = t
  generalize a.isEstimationUpdate = e
  generalize a.isPredicted = p
  interval_cases n <;> cases t <;> cases e <;> cases p <;> rfl

theorem writeSample_payload (a : SampleArgs) (r : ApplePencilState) :
    (writeSample a r).payload = (Append.sample a).payload := by
  have hb := writeSample_buttons a r
  simp only [ApplePencilState.payload, Append.payload, hb]
  simp [writeSample]

theorem writeBarrelTap_payload (r : ApplePencilState) :
    (writeBarrelTap r).payload = Append.barrelTap.payload := by
  simp [writeBarrelTap, ApplePencilState.payload, Append.payload, u16]

theorem write_payload (ap : Append) (r : ApplePencilState) :
    (ap.write r).payload = ap.payload := by
  cases ap with
  | sample a => exact writeSample_payload a r
  | barrelTap => exact writeBarrelTap_payload r

theorem write_padding (ap : Append) (r : ApplePencilState) :
    (ap.write r).padding1 = r.padding1 ∧ (ap.write r).padding2 = r.padding2 := by
  cases ap <;> simp [Append.write, writeSample, writeBarrelTap]

/-- With a buffer installed and a nonzero length, an append call stores into the record at the
write cursor, advances the cursor and touches nothing else. -/
theorem run_registered (ap : Append) (m : Machine) (b : Nat) (hb : m.mgr.buffer = some b)
    (hC : m.mgr.bufferLength ≠ 0) :
    ap.run m =
      { mgr := { m.mgr with bufferOffset := advanceOffset m.mgr.bufferOffset m.mgr.bufferLength }
        mem := storeRecord m.mem b m.mgr.bufferOffset (ap.write (m.mem b m.mgr.bufferOffset))
        trace := m.trace ++ [Event.deref b m.mgr.bufferOffset] } := by
  cases ap <;>
    simp [Append.run, Append.write, AddApplePencilEvent, AddApplePencilBarrelTapEvent,
      ApplePencilManager.AddApplePencilEvent, ApplePencilManager.AddApplePencilBarrelTapEvent,
      hb, hC]

theorem storeRecord_same (mem : Nat → Int → ApplePencilState) (p : Nat) (i : Int)
    (r : ApplePencilState) : storeRecord mem p i r p i = r := by
  simp [storeRecord]

theorem storeRecord_other (mem : Nat → Int → ApplePencilState) (p : Nat) (i j : Int)
    (r : ApplePencilState) (h : j ≠ i) : storeRecord mem p i r p j = mem p j := by
  simp [storeRecord, h]

theorem pendingCount_exact_fwd (C w l : Int) (h : w > l) (hf : fitsInt (w - l)) :
    pendingCount C w l = w - l := by
  unfold pendingCount
  rw [if_pos h]
  exact wrapInt_eq _ hf.1 hf.2

theorem pendingCount_exact_wrap (C w l : Int) (h : ¬ w > l) (hf1 : fitsInt (C - l))
    (hf2 : fitsInt (C - l + w)) : pendingCount C w l = C - l + w := by
  unfold pendingCount
  rw [if_neg h]
  simp only [wrapInt_eq _ hf1.1 hf1.2]
  exact wrapInt_eq _ hf2.1 hf2.2

theorem flush_pending (m : Machine) (b h : Nat) (hb : m.mgr.buffer = some b)
    (hh : m.mgr.handler = some h) (hne : m.mgr.bufferOffset ≠ m.mgr.lastNotifiedOffset) :
    FlushApplePencilEvents m =
      { mgr := { m.mgr with lastNotifiedOffset := m.mgr.bufferOffset }
        mem := m.mem
        trace := m.trace ++ [Event.callback h m.mgr.lastNotifiedOffset
          (pendingCount m.mgr.bufferLength m.mgr.bufferOffset m.mgr.lastNotifiedOffset)] } := by
  simp [FlushApplePencilEvents, ApplePencilManager.FlushApplePencilEvents, hb, hh, hne]

theorem flush_idle (m : Machine)
    (h : m.mgr.buffer = none ∨ m.mgr.bufferOffset = m.mgr.lastNotifiedOffset
      ∨ m.mgr.handler = none) : FlushApplePencilEvents m = m := by
  unfold FlushApplePencilEvents ApplePencilManager.FlushApplePencilEvents
  split
  · rename_i hb hh
    rcases h with h | h | h
    · simp [hb] at h
    · simp [h]
    · simp [hh] at h
  · rfl

theorem run_unregistered (ap : Append) (m : Machine)
    (h : m.mgr.buffer = none ∨ m.mgr.bufferLength = 0) : ap.run m = m := by
  cases ap <;>
    · simp only [Append.run, AddApplePencilEvent, AddApplePencilBarrelTapEvent,
        ApplePencilManager.AddApplePencilEvent, ApplePencilManager.AddApplePencilBarrelTapEvent]
      split
      · rfl
      · rename_i hb
        rcases h with h | h
        · simp [hb] at h
        · simp [h]

theorem runOps_no_buffer (ops : List Op) (m : Machine) (h : m.mgr.buffer = none) :
    runOps ops m = m := by
  induction ops with
  | nil => rfl
  | cons o rest ih =>
    have ho : o.run m = m := by
      cases o with
      | append ap => exact run_unregistered ap m (Or.inl h)
      | flush => exact flush_idle m (Or.inl h)
    simp only [runOps, ho, ih]

/-! ## The flush protocol -/

/-- C2: with a buffer and a handler installed and the cursors `w = bufferOffset`,
`l = lastNotifiedOffset` different, `FlushApplePencilEvents` invokes the handler exactly once, with
first argument `l` and the pending count as second argument, and leaves `lastNotifiedOffset = w`.
The count is the one the code computes in `int` arithmetic; it is exactly `w - l` when `w > l` and
exactly `(C - l) + w` otherwise, whenever those values are values of `int`. -/
theorem C2_flush_reports_pending_span (m : Machine) (b h : Nat) (hb : m.mgr.buffer = some b)
    (hh : m.mgr.handler = some h) (hne : m.mgr.bufferOffset ≠ m.mgr.lastNotifiedOffset) :
    (FlushApplePencilEvents m).trace
        = m.trace ++ [Event.callback h m.mgr.lastNotifiedOffset
            (pendingCount m.mgr.bufferLength m.mgr.bufferOffset m.mgr.lastNotifiedOffset)]
      ∧ (FlushApplePencilEvents m).mgr.lastNotifiedOffset = m.mgr.bufferOffset
      ∧ (m.mgr.bufferOffset > m.mgr.lastNotifiedOffset →
          fitsInt (m.mgr.bufferOffset - m.mgr.lastNotifiedOffset) →
          pendingCount m.mgr.bufferLength m.mgr.bufferOffset m.mgr.lastNotifiedOffset
            = m.mgr.bufferOffset - m.mgr.lastNotifiedOffset)
      ∧ (¬ m.mgr.bufferOffset > m.mgr.lastNotifiedOffset →
          fitsInt (m.mgr.bufferLength - m.mgr.lastNotifiedOffset) →
          fitsInt (m.mgr.bufferLength - m.mgr.lastNotifiedOffset + m.mgr.bufferOffset) →
          pendingCount m.mgr.bufferLength m.mgr.bufferOffset m.mgr.lastNotifiedOffset
            = (m.mgr.bufferLength - m.mgr.lastNotifiedOffset) + m.mgr.bufferOffset) := by
  rw [flush_pending m b h hb hh hne]
  exact ⟨rfl, rfl, fun hgt hf => pendingCount_exact_fwd _ _ _ hgt hf,
    fun hgt hf1 hf2 => pendingCount_exact_wrap _ _ _ hgt hf1 hf2⟩

/-- Instance of C2 on a length-4 buffer whose write cursor has wrapped to 1 while the notified
cursor is 3: one invocation with `(3, (4 - 3) + 1)`. -/
theorem C2_flush_reports_pending_span_witness :
    (staleMachine wrappedStatics).mgr.buffer = some 0
      ∧ (staleMachine wrappedStatics).mgr.handler = some 1
      ∧ (staleMachine wrappedStatics).mgr.bufferOffset
          ≠ (staleMachine wrappedStatics).mgr.lastNotifiedOffset
      ∧ (FlushApplePencilEvents (staleMachine wrappedStatics)).trace = [Event.callback 1 3 2]
      ∧ (FlushApplePencilEvents (staleMachine wrappedStatics)).mgr.lastNotifiedOffset = 1 := by
  have h := C2_flush_reports_pending_span (staleMachine wrappedStatics) 0 1 rfl rfl (by decide)
  exact ⟨rfl, rfl, by decide, h.1.trans (by decide), h.2.1⟩

/-- C6: for every state, a second `FlushApplePencilEvents` directly after a first changes nothing
(state, memory and trace are those after the first call, so the second call invokes no handler);
the first call adds at most one trace entry; and with buffer and handler installed the two cursors
are equal after the first call. -/
theorem C6_flush_twice_is_flush_once (m : Machine) :
    FlushApplePencilEvents (FlushApplePencilEvents m) = FlushApplePencilEvents m
      ∧ (∃ added : List Event, (FlushApplePencilEvents m).trace = m.trace ++ added
          ∧ added.length ≤ 1)
      ∧ (m.mgr.buffer ≠ none → m.mgr.handler ≠ none →
          (FlushApplePencilEvents m).mgr.bufferOffset
            = (FlushApplePencilEvents m).mgr.lastNotifiedOffset) := by
  by_cases hidle : m.mgr.buffer = none ∨ m.mgr.bufferOffset = m.mgr.lastNotifiedOffset
      ∨ m.mgr.handler = none
  · rw [flush_idle m hidle, flush_idle m hidle]
    refine ⟨rfl, ⟨[], by simp, by simp⟩, fun hb hh => ?_⟩
    rcases hidle with h | h | h
    · exact absurd h hb
    · exact h
    · exact absurd h hh
  · have hb : m.mgr.buffer ≠ none := fun h => hidle (Or.inl h)
    have hne : m.mgr.bufferOffset ≠ m.mgr.lastNotifiedOffset := fun h => hidle (Or.inr (Or.inl h))
    have hh : m.mgr.handler ≠ none := fun h => hidle (Or.inr (Or.inr h))
    obtain ⟨b, hb⟩ := Option.ne_none_iff_exists'.mp hb
    obtain ⟨h, hh⟩ := Option.ne_none_iff_exists'.mp hh
    rw [flush_pending m b h hb hh hne]
    refine ⟨flush_idle _ (Or.inr (Or.inl rfl)), ⟨_, rfl, by simp⟩, fun _ _ => rfl⟩

/-- Instance of C6 on a state with two pending records: the first flush reports them, the second
adds nothing. -/
theorem C6_flush_twice_is_flush_once_witness :
    (staleMachine wrappedStatics).mgr.buffer ≠ none
      ∧ (staleMachine wrappedStatics).mgr.handler ≠ none
      ∧ (FlushApplePencilEvents (FlushApplePencilEvents (staleMachine wrappedStatics))).trace
          = [Event.callback 1 3 2]
      ∧ (FlushApplePencilEvents (staleMachine wrappedStatics)).mgr.bufferOffset
          = (FlushApplePencilEvents (staleMachine wrappedStatics)).mgr.lastNotifiedOffset := by
  have h := C6_flush_twice_is_flush_once (staleMachine wrappedStatics)
  refine ⟨by decide, by decide, ?_, h.2.2 (by decide) (by decide)⟩
  rw [h.1]
  decide

/-! ## The append path -/

/-- C3: with a buffer installed, capacity `C > 0` and write cursor `0 ≤ w < C`, an append call
(`AddApplePencilEvent` or `AddApplePencilBarrelTapEvent`) leaves in slot `w` the position,
pressure, tilt, buttons and estimationUpdateIndex of that call whatever the slot held before, and
sets `bufferOffset` to `w + 1` if `w + 1 < C` and to `0` otherwise, which is `(w + 1) mod C`. -/
theorem C3_append_writes_slot_and_advances (ap : Append) (m : Machine) (b : Nat)
    (hb : m.mgr.buffer = some b) (hC : 0 < m.mgr.bufferLength)
    (hmax : m.mgr.bufferLength ≤ INT_MAX) (hw0 : 0 ≤ m.mgr.bufferOffset)
    (hw : m.mgr.bufferOffset < m.mgr.bufferLength) :
    ((ap.run m).mem b m.mgr.bufferOffset).payload = ap.payload
      ∧ (ap.run m).mgr.bufferOffset
          = (if m.mgr.bufferOffset + 1 < m.mgr.bufferLength then m.mgr.bufferOffset + 1 else 0)
      ∧ (ap.run m).mgr.bufferOffset = (m.mgr.bufferOffset + 1) % m.mgr.bufferLength := by
  rw [run_registered ap m b hb (by omega)]
  refine ⟨?_, advanceOffset_eq _ _ hw0 hw hmax, advanceOffset_emod _ _ hw0 hw hmax⟩
  simp only [storeRecord_same]
  exact write_payload ap _

/-- Instance of C3 at the last slot of a length-4 buffer holding stale data: the sample lands in
slot 3 and the cursor wraps to 0. -/
theorem C3_append_writes_slot_and_advances_witness :
    (staleMachine lastSlotStatics).mgr.buffer = some 0
      ∧ 0 < (staleMachine lastSlotStatics).mgr.bufferLength
      ∧ (staleMachine lastSlotStatics).mgr.bufferLength ≤ INT_MAX
      ∧ 0 ≤ (staleMachine lastSlotStatics).mgr.bufferOffset
      ∧ (staleMachine lastSlotStatics).mgr.bufferOffset
          < (staleMachine lastSlotStatics).mgr.bufferLength
      ∧ ((AddApplePencilEvent sampleA (staleMachine lastSlotStatics)).mem 0 3).payload
          = (Append.sample sampleA).payload
      ∧ (AddApplePencilEvent sampleA (staleMachine lastSlotStatics)).mgr.bufferOffset = 0 := by
  have h := C3_append_writes_slot_and_advances (Append.sample sampleA)
    (staleMachine lastSlotStatics) 0 rfl (by decide) (by decide) (by decide) (by decide)
  exact ⟨rfl, by decide, by decide, by decide, by decide, h.1, h.2.1.trans (by decide)⟩

/-- C4, refuted as stated: with a buffer installed and the negative length `-1` (a capacity that
is not greater than 0), `AddApplePencilEvent` and `AddApplePencilBarrelTapEvent` do write slot 0:
the guard of the code tests `bufferLength == 0` only. -/
theorem C4_negative_length_is_written :
    (staleMachine negativeLengthStatics).mgr.buffer = some 0
      ∧ ¬ (staleMachine negativeLengthStatics).mgr.bufferLength > 0
      ∧ (AddApplePencilEvent sampleA (staleMachine negativeLengthStatics)).mem 0 0
          ≠ (staleMachine negativeLengthStatics).mem 0 0
      ∧ (AddApplePencilEvent sampleA (staleMachine negativeLengthStatics)).trace
          = [Event.deref 0 0]
      ∧ (AddApplePencilBarrelTapEvent (staleMachine negativeLengthStatics)).mem 0 0
          ≠ (staleMachine negativeLengthStatics).mem 0 0
      ∧ (AddApplePencilBarrelTapEvent (staleMachine negativeLengthStatics)).trace
          = [Event.deref 0 0] := by
  decide

/-- C4, amended: in every state whose buffer reference is null or whose capacity equals 0,
`AddApplePencilEvent` and `AddApplePencilBarrelTapEvent` return the state as it was: no slot is
written or accessed, and `bufferOffset`, `lastNotifiedOffset`, capacity and handler are
unchanged. -/
theorem C4_append_noop_when_null_or_zero_length (a : SampleArgs) (m : Machine)
    (h : m.mgr.buffer = none ∨ m.mgr.bufferLength = 0) :
    AddApplePencilEvent a m = m ∧ AddApplePencilBarrelTapEvent m = m :=
  ⟨run_unregistered (Append.sample a) m h, run_unregistered Append.barrelTap m h⟩

/-- Instance of the amended C4 on a state with a buffer installed and length 0. -/
theorem C4_append_noop_when_null_or_zero_length_witness :
    ((staleMachine zeroLengthStatics).mgr.buffer = none
        ∨ (staleMachine zeroLengthStatics).mgr.bufferLength = 0)
      ∧ AddApplePencilEvent sampleA (staleMachine zeroLengthStatics)
          = staleMachine zeroLengthStatics
      ∧ AddApplePencilBarrelTapEvent (staleMachine zeroLengthStatics)
          = staleMachine zeroLengthStatics :=
  ⟨Or.inr rfl, C4_append_noop_when_null_or_zero_length sampleA (staleMachine zeroLengthStatics)
    (Or.inr rfl)⟩

/-- C5: in the unregistered state, reached by `UnsetApplePencilEventHandler` from any state or
given by the static initializers over any memory, every sequence of `AddApplePencilEvent`,
`AddApplePencilBarrelTapEvent` and `FlushApplePencilEvents` calls returns the machine as it was:
statics and memory unchanged, and no entry added to the trace, so no slot is accessed and no
callback is invoked. -/
theorem C5_unregistered_calls_change_nothing (ops : List Op) (m : Machine)
    (mem : Nat → Int → ApplePencilState) (trace : List Event) :
    runOps ops (UnsetApplePencilEventHandler m) = UnsetApplePencilEventHandler m
      ∧ (runOps ops (UnsetApplePencilEventHandler m)).trace = m.trace
      ∧ runOps ops { mgr := ApplePencilManager.init, mem := mem, trace := trace }
          = { mgr := ApplePencilManager.init, mem := mem, trace := trace } := by
  refine ⟨runOps_no_buffer ops _ rfl, ?_, runOps_no_buffer ops _ rfl⟩
  rw [runOps_no_buffer ops _ rfl]
  rfl

/-! ## The record contents -/

theorem add_event_slot (a : SampleArgs) (m : Machine) (b : Nat) (hb : m.mgr.buffer = some b)
    (hC : m.mgr.bufferLength ≠ 0) :
    (AddApplePencilEvent a m).mem b m.mgr.bufferOffset
      = writeSample a (m.mem b m.mgr.bufferOffset) := by
  have h := run_registered (Append.sample a) m b hb hC
  simp only [Append.run] at h
  rw [h]
  exact storeRecord_same _ _ _ _

theorem add_barrel_tap_slot (m : Machine) (b : Nat) (hb : m.mgr.buffer = some b)
    (hC : m.mgr.bufferLength ≠ 0) :
    (AddApplePencilBarrelTapEvent m).mem b m.mgr.bufferOffset
      = writeBarrelTap (m.mem b m.mgr.bufferOffset) := by
  have h := run_registered Append.barrelTap m b hb hC
  simp only [Append.run] at h
  rw [h]
  exact storeRecord_same _ _ _ _

theorem packedButtons_decode (t e p : Bool) (n : Nat) (hn : n ≤ 15) :
    buttonsTip (packedButtons t n e p) = t
      ∧ buttonsPendingCount (packedButtons t n e p) = n
      ∧ buttonsIsEstimationUpdate (packedButtons t n e p) = e
      ∧ buttonsIsPredicted (packedButtons t n e p) = p
      ∧ buttonsIsBarrelTap (packedButtons t n e p) = false := by
  interval_cases n <;> cases t <;> cases e <;> cases p <;> decide

/-- C8: for every tip flag, every pending-estimate count `n ≤ 15`, every estimation-update flag
and every predicted flag, the `buttons` value `AddApplePencilEvent` leaves in the written slot
decodes per the documented layout to exactly those inputs: bit 0 is the tip flag, bits 1-4 read
as a number are `n`, bit 5 is the estimation-update flag, bit 6 is the predicted flag. -/
theorem C8_buttons_decode_to_arguments (a : SampleArgs) (m : Machine) (b : Nat)
    (hb : m.mgr.buffer = some b) (hC : m.mgr.bufferLength ≠ 0)
    (hn : a.estimatedPropertiesExpectingUpdates ≤ 15) :
    buttonsTip ((AddApplePencilEvent a m).mem b m.mgr.bufferOffset).buttons = a.tip
      ∧ buttonsPendingCount ((AddApplePencilEvent a m).mem b m.mgr.bufferOffset).buttons
          = a.estimatedPropertiesExpectingUpdates
      ∧ buttonsIsEstimationUpdate ((AddApplePencilEvent a m).mem b m.mgr.bufferOffset).buttons
          = a.isEstimationUpdate
      ∧ buttonsIsPredicted ((AddApplePencilEvent a m).mem b m.mgr.bufferOffset).buttons
          = a.isPredicted := by
  rw [add_event_slot a m b hb hC, writeSample_buttons]
  have hmod : a.estimatedPropertiesExpectingUpdates % 16 = a.estimatedPropertiesExpectingUpdates :=
    Nat.mod_eq_of_lt (by omega)
  rw [hmod]
  have h := packedButtons_decode a.tip a.isEstimationUpdate a.isPredicted _ hn
  exact ⟨h.1, h.2.1, h.2.2.1, h.2.2.2.1⟩

/-- Instance of C8: tip down, three pending estimates, not an estimation update, predicted, written
over a stale record. -/
theorem C8_buttons_decode_to_arguments_witness :
    (staleMachine lastSlotStatics).mgr.buffer = some 0
      ∧ (staleMachine lastSlotStatics).mgr.bufferLength ≠ 0
      ∧ sampleA.estimatedPropertiesExpectingUpdates ≤ 15
      ∧ buttonsTip ((AddApplePencilEvent sampleA (staleMachine lastSlotStatics)).mem 0 3).buttons
          = true
      ∧ buttonsPendingCount
          ((AddApplePencilEvent sampleA (staleMachine lastSlotStatics)).mem 0 3).buttons = 3
      ∧ buttonsIsEstimationUpdate
          ((AddApplePencilEvent sampleA (staleMachine lastSlotStatics)).mem 0 3).buttons = false
      ∧ buttonsIsPredicted
          ((AddApplePencilEvent sampleA (staleMachine lastSlotStatics)).mem 0 3).buttons = true :=
  ⟨rfl, by decide, by decide,
    C8_buttons_decode_to_arguments sampleA (staleMachine lastSlotStatics) 0 rfl (by decide)
      (by decide)⟩

/-- C9: the record `AddApplePencilBarrelTapEvent` leaves in the written slot has bit 7 of `buttons`
set and `positionX`, `positionY`, `pressure`, `tiltX`, `tiltY` and `estimationUpdateIndex` zero;
for every argument tuple the `buttons` value `AddApplePencilEvent` writes has bit 7 clear; so the
`buttons` value of a barrel-tap record differs from that of every sample record. -/
theorem C9_barrel_tap_distinct_from_samples (a : SampleArgs) (m m2 : Machine) (b b2 : Nat)
    (hb : m.mgr.buffer = some b) (hC : m.mgr.bufferLength ≠ 0)
    (hb2 : m2.mgr.buffer = some b2) (hC2 : m2.mgr.bufferLength ≠ 0) :
    buttonsIsBarrelTap ((AddApplePencilBarrelTapEvent m).mem b m.mgr.bufferOffset).buttons = true
      ∧ ((AddApplePencilBarrelTapEvent m).mem b m.mgr.bufferOffset).positionX = CFloat.zero
      ∧ ((AddApplePencilBarrelTapEvent m).mem b m.mgr.bufferOffset).positionY = CFloat.zero
      ∧ ((AddApplePencilBarrelTapEvent m).mem b m.mgr.bufferOffset).pressure = CFloat.zero
      ∧ ((AddApplePencilBarrelTapEvent m).mem b m.mgr.bufferOffset).tiltX = CFloat.zero
      ∧ ((AddApplePencilBarrelTapEvent m).mem b m.mgr.bufferOffset).tiltY = CFloat.zero
      ∧ ((AddApplePencilBarrelTapEvent m).mem b m.mgr.bufferOffset).estimationUpdateIndex = 0
      ∧ buttonsIsBarrelTap ((AddApplePencilEvent a m2).mem b2 m2.mgr.bufferOffset).buttons = false
      ∧ ((AddApplePencilBarrelTapEvent m).mem b m.mgr.bufferOffset).buttons
          ≠ ((AddApplePencilEvent a m2).mem b2 m2.mgr.bufferOffset).buttons := by
  rw [add_barrel_tap_slot m b hb hC, add_event_slot a m2 b2 hb2 hC2, writeSample_buttons]
  have hlt : a.estimatedPropertiesExpectingUpdates % 16 ≤ 15 := by omega
  have h := (packedButtons_decode a.tip a.isEstimationUpdate a.isPredicted _ hlt).2.2.2.2
  have htap : (writeBarrelTap (m.mem b m.mgr.bufferOffset)).buttons = 128 := rfl
  refine ⟨by rw [htap]; decide, rfl, rfl, rfl, rfl, rfl, rfl, h, ?_⟩
  intro heq
  rw [← heq, htap] at h
  exact absurd h (by decide)

/-- Instance of C9: a barrel tap and a sample written over stale records, the sample with every
flag-carrying argument in use. -/
theorem C9_barrel_tap_distinct_from_samples_witness :
    (staleMachine lastSlotStatics).mgr.buffer = some 0
      ∧ (staleMachine lastSlotStatics).mgr.bufferLength ≠ 0
      ∧ ((AddApplePencilBarrelTapEvent (staleMachine lastSlotStatics)).mem 0 3).buttons = 128
      ∧ ((AddApplePencilEvent sampleA (staleMachine lastSlotStatics)).mem 0 3).buttons = 71
      ∧ ((AddApplePencilBarrelTapEvent (staleMachine lastSlotStatics)).mem 0 3).buttons
          ≠ ((AddApplePencilEvent sampleA (staleMachine lastSlotStatics)).mem 0 3).buttons :=
  ⟨rfl, by decide, by decide, by decide,
    (C9_barrel_tap_distinct_from_samples sampleA (staleMachine lastSlotStatics)
      (staleMachine lastSlotStatics) 0 0 rfl (by decide) rfl (by decide)).2.2.2.2.2.2.2.2⟩

/-- C10, refuted as stated: over a one-record buffer whose slot holds stale data with nonzero
padding, the record left by `AddApplePencilEvent` and by `AddApplePencilBarrelTapEvent` in the
written slot still has nonzero `padding1` and `padding2`. -/
theorem C10_stale_padding_survives :
    (staleMachine singleSlotStatics).mgr.buffer = some 0
      ∧ (staleMachine singleSlotStatics).mgr.bufferLength > 0
      ∧ ((AddApplePencilEvent sampleA (staleMachine singleSlotStatics)).mem 0 0).padding1
          ≠ CFloat.zero
      ∧ ((AddApplePencilEvent sampleA (staleMachine singleSlotStatics)).mem 0 0).padding2 ≠ 0
      ∧ ((AddApplePencilBarrelTapEvent (staleMachine singleSlotStatics)).mem 0 0).padding1
          ≠ CFloat.zero
      ∧ ((AddApplePencilBarrelTapEvent (staleMachine singleSlotStatics)).mem 0 0).padding2
          ≠ 0 := by
  decide

/-- C10, amended: with a buffer installed and a nonzero capacity, for every prior content of the
buffer, the record `AddApplePencilEvent` or `AddApplePencilBarrelTapEvent` leaves in the written
slot has `padding1` and `padding2` equal to what that slot held before the call; so both are zero
whenever they were zero before the call. -/
theorem C10_append_keeps_padding (ap : Append) (m : Machine) (b : Nat)
    (hb : m.mgr.buffer = some b) (hC : m.mgr.bufferLength ≠ 0) :
    ((ap.run m).mem b m.mgr.bufferOffset).padding1 = (m.mem b m.mgr.bufferOffset).padding1
      ∧ ((ap.run m).mem b m.mgr.bufferOffset).padding2 = (m.mem b m.mgr.bufferOffset).padding2
      ∧ ((m.mem b m.mgr.bufferOffset).padding1 = CFloat.zero →
          (m.mem b m.mgr.bufferOffset).padding2 = 0 →
          ((ap.run m).mem b m.mgr.bufferOffset).padding1 = CFloat.zero
            ∧ ((ap.run m).mem b m.mgr.bufferOffset).padding2 = 0) := by
  rw [run_registered ap m b hb hC]
  simp only [storeRecord_same]
  have h := write_padding ap (m.mem b m.mgr.bufferOffset)
  exact ⟨h.1, h.2, fun h1 h2 => ⟨h.1.trans h1, h.2.trans h2⟩⟩

/-- Instance of the amended C10 over zero-filled memory: the padding of the written record is
zero. -/
theorem C10_append_keeps_padding_witness :
    (zeroMachine singleSlotStatics).mgr.buffer = some 0
      ∧ (zeroMachine singleSlotStatics).mgr.bufferLength ≠ 0
      ∧ ((AddApplePencilEvent sampleA (zeroMachine singleSlotStatics)).mem 0 0).padding1
          = CFloat.zero
      ∧ ((AddApplePencilEvent sampleA (zeroMachine singleSlotStatics)).mem 0 0).padding2 = 0 :=
  ⟨rfl, by decide,
    (C10_append_keeps_padding (Append.sample sampleA) (zeroMachine singleSlotStatics) 0 rfl
      (by decide)).2.2 rfl rfl⟩

/-! ## Sequences of appends -/

theorem callbacks_append (l1 l2 : List Event) :
    callbacks (l1 ++ l2) = callbacks l1 ++ callbacks l2 := by
  induction l1 with
  | nil => rfl
  | cons e rest ih =>
    cases e <;> simp [callbacks, ih]

theorem run_callbacks (ap : Append) (m : Machine) :
    callbacks (ap.run m).trace = callbacks m.trace := by
  by_cases h : m.mgr.buffer = none ∨ m.mgr.bufferLength = 0
  · rw [run_unregistered ap m h]
  · have hb : m.mgr.buffer ≠ none := fun hb => h (Or.inl hb)
    obtain ⟨b, hb⟩ := Option.ne_none_iff_exists'.mp hb
    rw [run_registered ap m b hb (fun hC => h (Or.inr hC))]
    simp [callbacks_append, callbacks]

theorem runAppends_callbacks (as : List Append) (m : Machine) :
    callbacks (runAppends as m).trace = callbacks m.trace := by
  induction as generalizing m with
  | nil => rfl
  | cons a rest ih => simp only [runAppends, ih, run_callbacks]

theorem emod_offset_ne (w d C : Int) (hw0 : 0 ≤ w) (hw : w < C) (hd0 : 0 < d) (hd : d < C) :
    (w + d) % C ≠ w := by
  rw [emod_lt_two (w + d) C (by omega) (by omega)]
  split <;> omega

theorem runAppends_mgr (as : List Append) (m : Machine) (b : Nat) (hb : m.mgr.buffer = some b)
    (hC : 0 < m.mgr.bufferLength) (hmax : m.mgr.bufferLength ≤ INT_MAX)
    (hw0 : 0 ≤ m.mgr.bufferOffset) (hw : m.mgr.bufferOffset < m.mgr.bufferLength) :
    (runAppends as m).mgr
      = { m.mgr with
          bufferOffset := (m.mgr.bufferOffset + (as.length : Int)) % m.mgr.bufferLength } := by
  induction as generalizing m with
  | nil =>
    simp only [runAppends, List.length_nil, Int.Nat.cast_ofNat_Int, Int.add_zero,
      Int.emod_eq_of_lt hw0 hw]
  | cons a rest ih =>
    have hrun := run_registered a m b hb (by omega)
    have hadv := advanceOffset_emod _ _ hw0 hw hmax
    have hm1 : (a.run m).mgr
        = { m.mgr with bufferOffset := (m.mgr.bufferOffset + 1) % m.mgr.bufferLength } := by
      rw [hrun, hadv]
    have h1 := ih (a.run m) (by rw [hm1]; exact hb) (by rw [hm1]; exact hC)
      (by rw [hm1]; exact hmax) (by rw [hm1]; exact Int.emod_nonneg _ (by omega))
      (by rw [hm1]; exact Int.emod_lt_of_pos _ hC)
    simp only [runAppends]
    rw [h1, hm1]
    simp only [List.length_cons, Nat.cast_add, Nat.cast_one, Int.emod_add_emod]
    congr 2
    omega


theorem run_mgr_registered (a : Append) (m : Machine) (b : Nat) (hb : m.mgr.buffer = some b)
    (hC : 0 < m.mgr.bufferLength) (hmax : m.mgr.bufferLength ≤ INT_MAX)
    (hw0 : 0 ≤ m.mgr.bufferOffset) (hw : m.mgr.bufferOffset < m.mgr.bufferLength) :
    (a.run m).mgr
      = { m.mgr with bufferOffset := (m.mgr.bufferOffset + 1) % m.mgr.bufferLength } := by
  rw [run_registered a m b hb (by omega), advanceOffset_emod _ _ hw0 hw hmax]

theorem runAppends_mem_frame (as : List Append) (m : Machine) (b : Nat) (j : Int)
    (hb : m.mgr.buffer = some b)
    (hC : 0 < m.mgr.bufferLength) (hmax : m.mgr.bufferLength ≤ INT_MAX)
    (hw0 : 0 ≤ m.mgr.bufferOffset) (hw : m.mgr.bufferOffset < m.mgr.bufferLength)
    (hj : ∀ k : Nat, k < as.length → (m.mgr.bufferOffset + (k : Int)) % m.mgr.bufferLength ≠ j) :
    (runAppends as m).mem b j = m.mem b j := by
  induction as generalizing m with
  | nil => rfl
  | cons a rest ih =>
    have hm1 := run_mgr_registered a m b hb hC hmax hw0 hw
    have hj0 : j ≠ m.mgr.bufferOffset := by
      have := hj 0 (by simp)
      simp only [Int.Nat.cast_ofNat_Int, Int.add_zero, Int.emod_eq_of_lt hw0 hw] at this
      exact fun h => this h.symm
    have hmem : (a.run m).mem b j = m.mem b j := by
      rw [run_registered a m b hb (by omega)]
      exact storeRecord_other _ _ _ _ _ hj0
    simp only [runAppends]
    rw [← hmem]
    apply ih (a.run m) (by rw [hm1]; exact hb) (by rw [hm1]; exact hC)
      (by rw [hm1]; exact hmax) (by rw [hm1]; exact Int.emod_nonneg _ (by omega))
      (by rw [hm1]; exact Int.emod_lt_of_pos _ hC)
    intro k hk
    rw [hm1]
    simp only [Int.emod_add_emod]
    have := hj (k + 1) (by simp; omega)
    rw [show m.mgr.bufferOffset + 1 + (k : Int) = m.mgr.bufferOffset + ((k + 1 : Nat) : Int) by
      push_cast; omega]
    exact this

theorem runAppends_mem (as : List Append) (m : Machine) (b : Nat)
    (hb : m.mgr.buffer = some b)
    (hC : 0 < m.mgr.bufferLength) (hmax : m.mgr.bufferLength ≤ INT_MAX)
    (hw0 : 0 ≤ m.mgr.bufferOffset) (hw : m.mgr.bufferOffset < m.mgr.bufferLength)
    (hlen : (as.length : Int) ≤ m.mgr.bufferLength) (i : Nat) (ap : Append)
    (hi : as[i]? = some ap) :
    ((runAppends as m).mem b ((m.mgr.bufferOffset + (i : Int)) % m.mgr.bufferLength)).payload
      = ap.payload := by
  induction as generalizing m i with
  | nil => simp at hi
  | cons a rest ih =>
    have hm1 := run_mgr_registered a m b hb hC hmax hw0 hw
    have hlen2 : (rest.length : Int) + 1 ≤ m.mgr.bufferLength := by
      simpa using hlen
    have hb1 : (a.run m).mgr.buffer = some b := by rw [hm1]; exact hb
    have hC1 : 0 < (a.run m).mgr.bufferLength := by rw [hm1]; exact hC
    have hmax1 : (a.run m).mgr.bufferLength ≤ INT_MAX := by rw [hm1]; exact hmax
    have hw01 : 0 ≤ (a.run m).mgr.bufferOffset := by
      rw [hm1]; exact Int.emod_nonneg _ (by omega)
    have hw1 : (a.run m).mgr.bufferOffset < (a.run m).mgr.bufferLength := by
      rw [hm1]; exact Int.emod_lt_of_pos _ hC
    simp only [runAppends]
    cases i with
    | zero =>
      simp only [List.getElem?_cons_zero, Option.some.injEq] at hi
      subst hi
      simp only [Int.Nat.cast_ofNat_Int, Int.add_zero, Int.emod_eq_of_lt hw0 hw]
      rw [runAppends_mem_frame rest (a.run m) b _ hb1 hC1 hmax1 hw01 hw1]
      · rw [run_registered a m b hb (by omega)]
        simp only [storeRecord_same]
        exact write_payload a _
      · intro k hk
        rw [hm1]
        simp only [Int.emod_add_emod]
        rw [show m.mgr.bufferOffset + 1 + (k : Int) = m.mgr.bufferOffset + (1 + (k : Int)) by omega]
        exact emod_offset_ne _ _ _ hw0 hw (by omega) (by omega)
    | succ i2 =>
      simp only [List.getElem?_cons_succ] at hi
      have h := ih (a.run m) hb1 hC1 hmax1 hw01 hw1 (by rw [hm1]; simp only; omega) i2 hi
      rw [hm1] at h
      simp only [Int.emod_add_emod] at h
      rw [show m.mgr.bufferOffset + (((i2 + 1 : Nat)) : Int) = m.mgr.bufferOffset + 1 + (i2 : Int) by
        push_cast; omega]
      exact h


/-- C1, amended: for every registered state (buffer and handler installed, capacity `C` an `int`)
at rest with `bufferOffset = lastNotifiedOffset = L`, `0 ≤ L < C`, and every sequence of `N` append
calls with `1 ≤ N < C`, the following `FlushApplePencilEvents` invokes the handler exactly once,
with `(L, N)`, no append having invoked it; and for each `i < N` slot `(L + i) mod C` holds the
position, pressure, tilt, buttons and estimationUpdateIndex of the `i`-th appended record. -/
theorem C1_appends_then_flush_reports_all (as : List Append) (m : Machine) (b h : Nat)
    (hb : m.mgr.buffer = some b) (hh : m.mgr.handler = some h)
    (hmax : m.mgr.bufferLength ≤ INT_MAX)
    (hrest : m.mgr.bufferOffset = m.mgr.lastNotifiedOffset)
    (hL0 : 0 ≤ m.mgr.lastNotifiedOffset) (hL : m.mgr.lastNotifiedOffset < m.mgr.bufferLength)
    (hN1 : 1 ≤ as.length) (hN : (as.length : Int) < m.mgr.bufferLength) :
    (FlushApplePencilEvents (runAppends as m)).trace
        = (runAppends as m).trace ++ [Event.callback h m.mgr.lastNotifiedOffset as.length]
      ∧ callbacks (FlushApplePencilEvents (runAppends as m)).trace
        = callbacks m.trace ++ [(m.mgr.lastNotifiedOffset, (as.length : Int))]
      ∧ ∀ (i : Nat) (ap : Append), as[i]? = some ap →
          ((FlushApplePencilEvents (runAppends as m)).mem b
            ((m.mgr.lastNotifiedOffset + (i : Int)) % m.mgr.bufferLength)).payload = ap.payload := by
  have hC : 0 < m.mgr.bufferLength := by omega
  have hw0 : 0 ≤ m.mgr.bufferOffset := by omega
  have hw : m.mgr.bufferOffset < m.mgr.bufferLength := by omega
  have hmgr := runAppends_mgr as m b hb hC hmax hw0 hw
  have hmax2 : m.mgr.bufferLength ≤ 2147483647 := hmax
  have hoff : (runAppends as m).mgr.bufferOffset
      = (m.mgr.lastNotifiedOffset + (as.length : Int)) % m.mgr.bufferLength := by
    rw [hmgr, hrest]
  have hoff2 := emod_lt_two (m.mgr.lastNotifiedOffset + (as.length : Int)) m.mgr.bufferLength
    (by omega) (by omega)
  have hne : (runAppends as m).mgr.bufferOffset ≠ (runAppends as m).mgr.lastNotifiedOffset := by
    rw [hoff, hmgr]
    exact emod_offset_ne _ _ _ hL0 hL (by omega) hN
  have hfl := flush_pending (runAppends as m) b h (by rw [hmgr]; exact hb) (by rw [hmgr]; exact hh)
    hne
  have hcount : pendingCount (runAppends as m).mgr.bufferLength (runAppends as m).mgr.bufferOffset
      (runAppends as m).mgr.lastNotifiedOffset = (as.length : Int) := by
    rw [hoff, hmgr]
    simp only
    rw [hoff2]
    split
    · rw [pendingCount_exact_fwd _ _ _ (by omega) ⟨by unfold INT_MIN; omega, by unfold INT_MAX; omega⟩]
      omega
    · rw [pendingCount_exact_wrap _ _ _ (by omega) ⟨by unfold INT_MIN; omega, by unfold INT_MAX; omega⟩
        ⟨by unfold INT_MIN; omega, by unfold INT_MAX; omega⟩]
      omega
  have hlast : (runAppends as m).mgr.lastNotifiedOffset = m.mgr.lastNotifiedOffset := by
    rw [hmgr]
  have htrace : (FlushApplePencilEvents (runAppends as m)).trace
        = (runAppends as m).trace ++ [Event.callback h m.mgr.lastNotifiedOffset as.length] := by
    rw [hfl, hcount, hlast]
  refine ⟨htrace, ?_, ?_⟩
  · rw [htrace, callbacks_append, runAppends_callbacks]
    rfl
  · intro i ap hi
    have hmem : (FlushApplePencilEvents (runAppends as m)).mem = (runAppends as m).mem := by
      rw [hfl]
    rw [hmem, ← hrest]
    exact runAppends_mem as m b hb hC hmax hw0 hw (by omega) i ap hi

/-- C1, refuted as stated at `N = C`: on a one-record buffer at rest one append, and on a
length-4 buffer at rest in slot 3 four appends, bring the write cursor back onto the notified
cursor, and the following `FlushApplePencilEvents` invokes no handler at all. -/
theorem C1_full_lap_is_not_reported :
    (staleMachine singleSlotStatics).mgr.buffer = some 0
      ∧ (staleMachine singleSlotStatics).mgr.handler = some 1
      ∧ (staleMachine singleSlotStatics).mgr.bufferOffset
          = (staleMachine singleSlotStatics).mgr.lastNotifiedOffset
      ∧ ([Append.sample sampleA].length : Int) ≤ (staleMachine singleSlotStatics).mgr.bufferLength
      ∧ (FlushApplePencilEvents
          (runAppends [Append.sample sampleA] (staleMachine singleSlotStatics))).trace
          = [Event.deref 0 0]
      ∧ (staleMachine lastSlotStatics).mgr.bufferOffset
          = (staleMachine lastSlotStatics).mgr.lastNotifiedOffset
      ∧ (fourAppends.length : Int) ≤ (staleMachine lastSlotStatics).mgr.bufferLength
      ∧ callbacks (FlushApplePencilEvents
          (runAppends fourAppends (staleMachine lastSlotStatics))).trace = [] := by
  decide

/-- Instance of the amended C1: a sample and a barrel tap appended to a length-4 buffer at rest in
slot 3 are reported as `(3, 2)`, the sample in slot 3 and the tap in slot 0. -/
theorem C1_appends_then_flush_reports_all_witness :
    (staleMachine lastSlotStatics).mgr.buffer = some 0
      ∧ (staleMachine lastSlotStatics).mgr.handler = some 1
      ∧ (sampleThenTap.length : Int) < (staleMachine lastSlotStatics).mgr.bufferLength
      ∧ callbacks (FlushApplePencilEvents
          (runAppends sampleThenTap (staleMachine lastSlotStatics))).trace = [(3, 2)]
      ∧ ((FlushApplePencilEvents (runAppends sampleThenTap (staleMachine lastSlotStatics))).mem 0
          3).payload = (Append.sample sampleA).payload
      ∧ ((FlushApplePencilEvents (runAppends sampleThenTap (staleMachine lastSlotStatics))).mem 0
          0).payload = Append.barrelTap.payload := by
  have h := C1_appends_then_flush_reports_all sampleThenTap (staleMachine lastSlotStatics) 0 1
    rfl rfl (by decide) rfl (by decide) (by decide) (by decide) (by decide)
  exact ⟨rfl, rfl, by decide, h.2.1, h.2.2 0 _ rfl, h.2.2 1 _ rfl⟩

/-- C7: for every capacity `C > 0` and every `k` with `1 ≤ k < C`, after a fresh
`SetApplePencilEventHandler` with a buffer and a handler, appending `C + k` records and flushing
once invokes the handler exactly once, with start index `0` and count `k`. -/
theorem C7_lap_plus_k_reports_k (as : List Append) (m : Machine) (b h : Nat) (C k : Int)
    (hC : 0 < C) (hmax : C ≤ INT_MAX) (hk1 : 1 ≤ k) (hk : k < C)
    (hlen : (as.length : Int) = C + k) :
    (FlushApplePencilEvents
        (runAppends as (SetApplePencilEventHandler (some h) (some b) C m))).trace
        = (runAppends as (SetApplePencilEventHandler (some h) (some b) C m)).trace
            ++ [Event.callback h 0 k]
      ∧ callbacks (FlushApplePencilEvents
          (runAppends as (SetApplePencilEventHandler (some h) (some b) C m))).trace
        = callbacks m.trace ++ [(0, k)] := by
  have hmax2 : C ≤ 2147483647 := hmax
  have hmgr := runAppends_mgr as (SetApplePencilEventHandler (some h) (some b) C m) b rfl hC hmax
    (le_refl _) hC
  have hoff : (runAppends as (SetApplePencilEventHandler (some h) (some b) C m)).mgr.bufferOffset
      = k := by
    rw [hmgr]
    show (0 + (as.length : Int)) % C = k
    rw [hlen, Int.zero_add, Int.add_emod_self_left]
    exact Int.emod_eq_of_lt (by omega) hk
  have hlast :
      (runAppends as (SetApplePencilEventHandler (some h) (some b) C m)).mgr.lastNotifiedOffset
        = 0 := by
    rw [hmgr]
    rfl
  have hlen2 : (runAppends as (SetApplePencilEventHandler (some h) (some b) C m)).mgr.bufferLength
      = C := by
    rw [hmgr]
    rfl
  have hfl := flush_pending (runAppends as (SetApplePencilEventHandler (some h) (some b) C m)) b h
    (by rw [hmgr]; rfl) (by rw [hmgr]; rfl) (by rw [hoff, hlast]; omega)
  have hcount : pendingCount C k 0 = k := by
    rw [pendingCount_exact_fwd _ _ _ (by omega)
      ⟨by unfold INT_MIN; omega, by unfold INT_MAX; omega⟩]
    omega
  have htrace : (FlushApplePencilEvents
        (runAppends as (SetApplePencilEventHandler (some h) (some b) C m))).trace
        = (runAppends as (SetApplePencilEventHandler (some h) (some b) C m)).trace
            ++ [Event.callback h 0 k] := by
    rw [hfl, hoff, hlast, hlen2, hcount]
  refine ⟨htrace, ?_⟩
  rw [htrace, callbacks_append, runAppends_callbacks]
  rfl

/-- Instance of C7 with capacity 2 and `k = 1`: three appends after registration, then one flush
reporting `(0, 1)`. -/
theorem C7_lap_plus_k_reports_k_witness :
    (0 : Int) < 2 ∧ (2 : Int) ≤ INT_MAX ∧ (1 : Int) ≤ 1 ∧ (1 : Int) < 2
      ∧ (threeAppends.length : Int) = 2 + 1
      ∧ (FlushApplePencilEvents (runAppends threeAppends
          (SetApplePencilEventHandler (some 1) (some 0) 2 (staleMachine lastSlotStatics)))).trace
        = [Event.deref 0 0, Event.deref 0 1, Event.deref 0 0, Event.callback 1 0 1] := by
  have h := C7_lap_plus_k_reports_k threeAppends (staleMachine lastSlotStatics) 0 1 2 1
    (by decide) (by decide) (by decide) (by decide) (by decide)
  exact ⟨by decide, by decide, by decide, by decide, by decide, h.1.trans (by decide)⟩

/-! ## Runs of appends and flushes after a registration -/

theorem run_inv (ap : Append) (s : Machine) (C : Int) (hinv : cursorsInRange C s.mgr)
    (hmax : C ≤ INT_MAX) :
    cursorsInRange C (ap.run s).mgr
      ∧ (ap.run s).mgr.lastNotifiedOffset = s.mgr.lastNotifiedOffset
      ∧ (ap.run s).mgr.handler = s.mgr.handler ∧ (ap.run s).mgr.buffer = s.mgr.buffer := by
  obtain ⟨hlen, hw0, hw, hl0, hl⟩ := hinv
  by_cases h : s.mgr.buffer = none ∨ s.mgr.bufferLength = 0
  · rw [run_unregistered ap s h]
    exact ⟨⟨hlen, hw0, hw, hl0, hl⟩, rfl, rfl, rfl⟩
  · have hb : s.mgr.buffer ≠ none := fun hb => h (Or.inl hb)
    obtain ⟨b, hb⟩ := Option.ne_none_iff_exists'.mp hb
    have hm := run_mgr_registered ap s b hb (by omega) (by rw [hlen]; exact hmax) hw0
      (by rw [hlen]; exact hw)
    rw [hm]
    refine ⟨⟨hlen, ?_, ?_, hl0, hl⟩, rfl, rfl, rfl⟩
    · exact Int.emod_nonneg _ (by omega)
    · show (s.mgr.bufferOffset + 1) % s.mgr.bufferLength < C
      rw [hlen]
      exact Int.emod_lt_of_pos _ (by omega)

theorem pendingCount_in_range (C w l : Int) (hmax : C ≤ INT_MAX) (hw0 : 0 ≤ w) (hw : w < C)
    (hl0 : 0 ≤ l) (hl : l < C) (hne : w ≠ l) :
    1 ≤ pendingCount C w l ∧ pendingCount C w l ≤ C - 1
      ∧ (l + pendingCount C w l) % C = w := by
  have hmax2 : C ≤ 2147483647 := hmax
  by_cases hgt : w > l
  · rw [pendingCount_exact_fwd _ _ _ hgt ⟨by unfold INT_MIN; omega, by unfold INT_MAX; omega⟩]
    refine ⟨by omega, by omega, ?_⟩
    rw [show l + (w - l) = w by omega]
    exact Int.emod_eq_of_lt hw0 hw
  · rw [pendingCount_exact_wrap _ _ _ hgt ⟨by unfold INT_MIN; omega, by unfold INT_MAX; omega⟩
      ⟨by unfold INT_MIN; omega, by unfold INT_MAX; omega⟩]
    refine ⟨by omega, by omega, ?_⟩
    rw [show l + (C - l + w) = w + C by omega, Int.add_emod_self]
    exact Int.emod_eq_of_lt hw0 hw

theorem flush_inv (s : Machine) (C : Int) (hinv : cursorsInRange C s.mgr) (hmax : C ≤ INT_MAX) :
    cursorsInRange C (FlushApplePencilEvents s).mgr
      ∧ ((FlushApplePencilEvents s = s)
        ∨ (∃ f c, (FlushApplePencilEvents s).trace
              = s.trace ++ [Event.callback f s.mgr.lastNotifiedOffset c]
            ∧ 1 ≤ c ∧ c ≤ C - 1
            ∧ (FlushApplePencilEvents s).mgr.lastNotifiedOffset
                = (s.mgr.lastNotifiedOffset + c) % C)) := by
  obtain ⟨hlen, hw0, hw, hl0, hl⟩ := hinv
  by_cases hidle : s.mgr.buffer = none ∨ s.mgr.bufferOffset = s.mgr.lastNotifiedOffset
      ∨ s.mgr.handler = none
  · rw [flush_idle s hidle]
    exact ⟨⟨hlen, hw0, hw, hl0, hl⟩, Or.inl rfl⟩
  · have hb : s.mgr.buffer ≠ none := fun h => hidle (Or.inl h)
    have hne : s.mgr.bufferOffset ≠ s.mgr.lastNotifiedOffset := fun h => hidle (Or.inr (Or.inl h))
    have hh : s.mgr.handler ≠ none := fun h => hidle (Or.inr (Or.inr h))
    obtain ⟨b, hb⟩ := Option.ne_none_iff_exists'.mp hb
    obtain ⟨f, hh⟩ := Option.ne_none_iff_exists'.mp hh
    have hp := pendingCount_in_range C _ _ hmax hw0 hw hl0 hl hne
    rw [flush_pending s b f hb hh hne]
    refine ⟨⟨hlen, hw0, hw, hw0, hw⟩, Or.inr ⟨f, _, rfl, ?_, ?_, ?_⟩⟩
    · rw [hlen]; exact hp.1
    · rw [hlen]; exact hp.2.1
    · rw [hlen]; exact hp.2.2.symm

theorem op_step (o : Op) (s : Machine) (C : Int) (hinv : cursorsInRange C s.mgr)
    (hmax : C ≤ INT_MAX) :
    cursorsInRange C (o.run s).mgr
      ∧ ((callbacks (o.run s).trace = callbacks s.trace
            ∧ (o.run s).mgr.lastNotifiedOffset = s.mgr.lastNotifiedOffset)
        ∨ (∃ c, callbacks (o.run s).trace = callbacks s.trace ++ [(s.mgr.lastNotifiedOffset, c)]
            ∧ 1 ≤ c ∧ c ≤ C - 1
            ∧ (o.run s).mgr.lastNotifiedOffset = (s.mgr.lastNotifiedOffset + c) % C)) := by
  cases o with
  | append ap =>
    have h := run_inv ap s C hinv hmax
    exact ⟨h.1, Or.inl ⟨run_callbacks ap s, h.2.1⟩⟩
  | flush =>
    have h := flush_inv s C hinv hmax
    refine ⟨h.1, ?_⟩
    rcases h.2 with h2 | ⟨f, c, htr, hc1, hc2, hl⟩
    · left
      have e : Op.flush.run s = s := h2
      rw [e]
      exact ⟨rfl, rfl⟩
    · right
      refine ⟨c, ?_, hc1, hc2, hl⟩
      show callbacks (FlushApplePencilEvents s).trace = _
      rw [htr, callbacks_append]
      rfl

theorem runOps_contiguous (ops : List Op) (s : Machine) (C : Int)
    (hinv : cursorsInRange C s.mgr) (hmax : C ≤ INT_MAX) :
    cursorsInRange C (runOps ops s).mgr
      ∧ ∃ cs, callbacks (runOps ops s).trace = callbacks s.trace ++ cs
          ∧ contiguousFrom C s.mgr.lastNotifiedOffset cs := by
  induction ops generalizing s with
  | nil => exact ⟨hinv, [], by simp [runOps], trivial⟩
  | cons o rest ih =>
    have hstep := op_step o s C hinv hmax
    obtain ⟨hinv2, cs, hcs, hcont⟩ := ih (o.run s) hstep.1
    simp only [runOps]
    refine ⟨hinv2, ?_⟩
    rcases hstep.2 with ⟨htr, hl⟩ | ⟨c, htr, hc1, hc2, hl⟩
    · refine ⟨cs, ?_, ?_⟩
      · rw [hcs, htr]
      · rw [← hl]; exact hcont
    · refine ⟨(s.mgr.lastNotifiedOffset, c) :: cs, ?_, ?_⟩
      · rw [hcs, htr, List.append_assoc]
        rfl
      · refine ⟨rfl, hinv.2.2.2.1, hinv.2.2.2.2, hc1, hc2, ?_⟩
        rw [← hl]; exact hcont

theorem contiguousFrom_bounds (C start : Int) (cs : List (Int × Int))
    (h : contiguousFrom C start cs) :
    ∀ p ∈ cs, 0 ≤ p.1 ∧ p.1 < C ∧ 1 ≤ p.2 ∧ p.2 ≤ C - 1 := by
  induction cs generalizing start with
  | nil => intro p hp; simp at hp
  | cons q rest ih =>
    obtain ⟨o, c⟩ := q
    obtain ⟨_, h1, h2, h3, h4, h5⟩ := h
    intro p hp
    rcases List.mem_cons.mp hp with hp | hp
    · subst hp; exact ⟨h1, h2, h3, h4⟩
    · exact ih _ h5 p hp

theorem contiguousFrom_head (C start : Int) (cs : List (Int × Int))
    (h : contiguousFrom C start cs) (p : Int × Int) (hp : cs[0]? = some p) : p.1 = start := by
  cases cs with
  | nil => simp at hp
  | cons q rest =>
    obtain ⟨o, c⟩ := q
    simp only [List.getElem?_cons_zero, Option.some.injEq] at hp
    subst hp
    exact h.1

theorem contiguousFrom_succ (C start : Int) (cs : List (Int × Int))
    (h : contiguousFrom C start cs) (i : Nat) (p q : Int × Int) (hp : cs[i]? = some p)
    (hq : cs[i + 1]? = some q) : q.1 = (p.1 + p.2) % C := by
  induction cs generalizing start i with
  | nil => simp at hp
  | cons r rest ih =>
    obtain ⟨o, c⟩ := r
    obtain ⟨_, _, _, _, _, h5⟩ := h
    simp only [List.getElem?_cons_succ] at hq
    cases i with
    | zero =>
      simp only [List.getElem?_cons_zero, Option.some.injEq] at hp
      subst hp
      exact contiguousFrom_head C _ rest h5 q hq
    | succ j =>
      simp only [List.getElem?_cons_succ] at hp
      exact ih _ h5 j hp hq

theorem set_cursorsInRange (h b : Option Nat) (C : Int) (m : Machine) (hC : 0 < C) :
    cursorsInRange C (SetApplePencilEventHandler h b C m).mgr :=
  ⟨rfl, le_refl _, hC, le_refl _, hC⟩

theorem flush_cursors_equal (m : Machine) (hb : m.mgr.buffer ≠ none)
    (hh : m.mgr.handler ≠ none) :
    (FlushApplePencilEvents m).mgr.bufferOffset
      = (FlushApplePencilEvents m).mgr.lastNotifiedOffset := by
  by_cases hne : m.mgr.bufferOffset = m.mgr.lastNotifiedOffset
  · rw [flush_idle m (Or.inr (Or.inl hne))]
    exact hne
  · obtain ⟨b, hb⟩ := Option.ne_none_iff_exists'.mp hb
    obtain ⟨h, hh⟩ := Option.ne_none_iff_exists'.mp hh
    rw [flush_pending m b h hb hh hne]

/-- C12: in every state reached from `SetApplePencilEventHandler` with a capacity `C > 0` by any
sequence of `AddApplePencilEvent`, `AddApplePencilBarrelTapEvent` and `FlushApplePencilEvents`
calls, `0 ≤ bufferOffset < C` and `0 ≤ lastNotifiedOffset < C`; and a flush performed in such a
state with buffer and handler non-null leaves `bufferOffset = lastNotifiedOffset`. -/
theorem C12_cursors_stay_in_range (ops : List Op) (h b : Option Nat) (C : Int) (m : Machine)
    (hC : 0 < C) (hmax : C ≤ INT_MAX) :
    0 ≤ (runOps ops (SetApplePencilEventHandler h b C m)).mgr.bufferOffset
      ∧ (runOps ops (SetApplePencilEventHandler h b C m)).mgr.bufferOffset < C
      ∧ 0 ≤ (runOps ops (SetApplePencilEventHandler h b C m)).mgr.lastNotifiedOffset
      ∧ (runOps ops (SetApplePencilEventHandler h b C m)).mgr.lastNotifiedOffset < C
      ∧ ((runOps ops (SetApplePencilEventHandler h b C m)).mgr.buffer ≠ none →
          (runOps ops (SetApplePencilEventHandler h b C m)).mgr.handler ≠ none →
          (FlushApplePencilEvents
              (runOps ops (SetApplePencilEventHandler h b C m))).mgr.bufferOffset
            = (FlushApplePencilEvents
                (runOps ops (SetApplePencilEventHandler h b C m))).mgr.lastNotifiedOffset) := by
  have hrun := (runOps_contiguous ops (SetApplePencilEventHandler h b C m) C
    (set_cursorsInRange h b C m hC) hmax).1
  obtain ⟨_, hw0, hw, hl0, hl⟩ := hrun
  exact ⟨hw0, hw, hl0, hl, fun hb hh => flush_cursors_equal _ hb hh⟩

/-- Instance of C12 on a capacity-3 ring after a run with two wraps: both cursors end at 2. -/
theorem C12_cursors_stay_in_range_witness :
    (0 : Int) < 3 ∧ (3 : Int) ≤ INT_MAX
      ∧ (runOps mixedRun (SetApplePencilEventHandler (some 1) (some 0) 3
          (staleMachine lastSlotStatics))).mgr.bufferOffset = 2
      ∧ 0 ≤ (runOps mixedRun (SetApplePencilEventHandler (some 1) (some 0) 3
          (staleMachine lastSlotStatics))).mgr.bufferOffset
      ∧ (runOps mixedRun (SetApplePencilEventHandler (some 1) (some 0) 3
          (staleMachine lastSlotStatics))).mgr.bufferOffset < 3
      ∧ 0 ≤ (runOps mixedRun (SetApplePencilEventHandler (some 1) (some 0) 3
          (staleMachine lastSlotStatics))).mgr.lastNotifiedOffset
      ∧ (runOps mixedRun (SetApplePencilEventHandler (some 1) (some 0) 3
          (staleMachine lastSlotStatics))).mgr.lastNotifiedOffset < 3 := by
  have h := C12_cursors_stay_in_range mixedRun (some 1) (some 0) 3
    (staleMachine lastSlotStatics) (by decide) (by decide)
  exact ⟨by decide, by decide, by decide, h.1, h.2.1, h.2.2.1, h.2.2.2.1⟩

/-- C17: in every state reached from `SetApplePencilEventHandler` with a capacity `C > 0` by
appends and flushes, whenever `FlushApplePencilEvents` invokes the handler with `(start, count)`,
`0 ≤ start < C` and `1 ≤ count ≤ C - 1`; so do all notifications recorded during the run. -/
theorem C17_notified_span_is_proper (ops : List Op) (h b : Option Nat) (C : Int) (m : Machine)
    (hC : 0 < C) (hmax : C ≤ INT_MAX) :
    (∀ (f : Nat) (start count : Int),
        (FlushApplePencilEvents (runOps ops (SetApplePencilEventHandler h b C m))).trace
            = (runOps ops (SetApplePencilEventHandler h b C m)).trace
                ++ [Event.callback f start count] →
          0 ≤ start ∧ start < C ∧ 1 ≤ count ∧ count ≤ C - 1)
      ∧ ∃ cs, callbacks (runOps ops (SetApplePencilEventHandler h b C m)).trace
            = callbacks m.trace ++ cs
          ∧ ∀ p ∈ cs, 0 ≤ p.1 ∧ p.1 < C ∧ 1 ≤ p.2 ∧ p.2 ≤ C - 1 := by
  have hrun := runOps_contiguous ops (SetApplePencilEventHandler h b C m) C
    (set_cursorsInRange h b C m hC) hmax
  obtain ⟨hinv, cs, hcs, hcont⟩ := hrun
  refine ⟨?_, cs, hcs, contiguousFrom_bounds C _ cs hcont⟩
  intro f start count htr
  rcases (flush_inv _ C hinv hmax).2 with hid | ⟨f2, c, htr2, hc1, hc2, _⟩
  · rw [hid] at htr
    have := congrArg List.length htr
    simp at this
  · rw [htr2] at htr
    have heq := List.append_cancel_left htr
    simp only [List.cons.injEq, Event.callback.injEq, and_true] at heq
    obtain ⟨_, hs, hcnt⟩ := heq
    rw [← hs, ← hcnt]
    exact ⟨hinv.2.2.2.1, hinv.2.2.2.2, hc1, hc2⟩

/-- Instance of C17 on a capacity-3 ring: after two appends the flush reports `(0, 2)`. -/
theorem C17_notified_span_is_proper_witness :
    (0 : Int) < 3 ∧ (3 : Int) ≤ INT_MAX
      ∧ (FlushApplePencilEvents (runOps [Op.append Append.barrelTap, Op.append Append.barrelTap]
            (SetApplePencilEventHandler (some 1) (some 0) 3 (staleMachine lastSlotStatics)))).trace
          = (runOps [Op.append Append.barrelTap, Op.append Append.barrelTap]
              (SetApplePencilEventHandler (some 1) (some 0) 3
                (staleMachine lastSlotStatics))).trace ++ [Event.callback 1 0 2]
      ∧ ((0 : Int) ≤ 0 ∧ (0 : Int) < 3 ∧ (1 : Int) ≤ 2 ∧ (2 : Int) ≤ 3 - 1) := by
  have h := C17_notified_span_is_proper [Op.append Append.barrelTap, Op.append Append.barrelTap]
    (some 1) (some 0) 3 (staleMachine lastSlotStatics) (by decide) (by decide)
  exact ⟨by decide, by decide, by decide, h.1 1 0 2 (by decide)⟩

/-- C18: in every run of appends and flushes after `SetApplePencilEventHandler` with a capacity
`C > 0`, the handler invocations of the run, in order, are such that the first has start index 0
and, for two successive ones `(s1, c1)` then `(s2, c2)`, `s2 = (s1 + c1) mod C`. -/
theorem C18_notifications_are_contiguous (ops : List Op) (h b : Option Nat) (C : Int)
    (m : Machine) (hC : 0 < C) (hmax : C ≤ INT_MAX) :
    ∃ cs, callbacks (runOps ops (SetApplePencilEventHandler h b C m)).trace
          = callbacks m.trace ++ cs
      ∧ (∀ p, cs[0]? = some p → p.1 = 0)
      ∧ (∀ (i : Nat) (p q : Int × Int), cs[i]? = some p → cs[i + 1]? = some q →
          q.1 = (p.1 + p.2) % C) := by
  have hrun := runOps_contiguous ops (SetApplePencilEventHandler h b C m) C
    (set_cursorsInRange h b C m hC) hmax
  obtain ⟨_, cs, hcs, hcont⟩ := hrun
  exact ⟨cs, hcs, fun p hp => contiguousFrom_head C _ cs hcont p hp,
    fun i p q hp hq => contiguousFrom_succ C _ cs hcont i p q hp hq⟩

/-- Instance of C18 on a capacity-3 ring: the run reports `(0, 2)`, `(2, 2)`, `(1, 1)`. -/
theorem C18_notifications_are_contiguous_witness :
    (0 : Int) < 3 ∧ (3 : Int) ≤ INT_MAX
      ∧ callbacks (runOps mixedRun (SetApplePencilEventHandler (some 1) (some 0) 3
          (staleMachine lastSlotStatics))).trace = [(0, 2), (2, 2), (1, 1)]
      ∧ ∃ cs, callbacks (runOps mixedRun (SetApplePencilEventHandler (some 1) (some 0) 3
            (staleMachine lastSlotStatics))).trace
            = callbacks (staleMachine lastSlotStatics).trace ++ cs
          ∧ (∀ p, cs[0]? = some p → p.1 = 0)
          ∧ (∀ (i : Nat) (p q : Int × Int), cs[i]? = some p → cs[i + 1]? = some q →
              q.1 = (p.1 + p.2) % 3) :=
  ⟨by decide, by decide, by decide,
    C18_notifications_are_contiguous mixedRun (some 1) (some 0) 3 (staleMachine lastSlotStatics)
      (by decide) (by decide)⟩

/-! ## The capacity-4 scenario -/

theorem tap_buttons_ne_sample (a : SampleArgs) :
    Append.barrelTap.payload ≠ (Append.sample a).payload := by
  intro h
  have hb := congrArg Payload.buttons h
  simp only [Append.payload] at hb
  have hlt : a.estimatedPropertiesExpectingUpdates % 16 ≤ 15 := by omega
  have hd := (packedButtons_decode a.tip a.isEstimationUpdate a.isPredicted _ hlt).2.2.2.2
  rw [← hb] at hd
  exact absurd hd (by decide)

theorem scenario_first_run (A B C : SampleArgs) (m : Machine) (h b : Nat) :
    runOps (scenarioFirst A B C) (SetApplePencilEventHandler (some h) (some b) 4 m)
      = { mgr := { handler := some h, buffer := some b, bufferLength := 4, bufferOffset := 3,
                   lastNotifiedOffset := 3 }
          mem := storeRecord (storeRecord (storeRecord m.mem b 0 (writeSample A (m.mem b 0)))
                    b 1 (writeSample B (m.mem b 1))) b 2 (writeSample C (m.mem b 2))
          trace := m.trace ++ [Event.deref b 0, Event.deref b 1, Event.deref b 2,
            Event.callback h 0 3] } := by
  simp [scenarioFirst, runOps, Op.run, Append.run, SetApplePencilEventHandler,
    AddApplePencilEvent, ApplePencilManager.AddApplePencilEvent, FlushApplePencilEvents,
    ApplePencilManager.FlushApplePencilEvents, advanceOffset, wrapInt, pendingCount, storeRecord]

theorem scenario_second_run (A B C D : SampleArgs) (m : Machine) (h b : Nat) :
    runOps (scenarioSecond D)
        (runOps (scenarioFirst A B C) (SetApplePencilEventHandler (some h) (some b) 4 m))
      = { mgr := { handler := some h, buffer := some b, bufferLength := 4, bufferOffset := 1,
                   lastNotifiedOffset := 1 }
          mem := storeRecord (storeRecord
                    (runOps (scenarioFirst A B C)
                      (SetApplePencilEventHandler (some h) (some b) 4 m)).mem
                    b 3 (writeSample D (m.mem b 3))) b 0
                    (writeBarrelTap (writeSample A (m.mem b 0)))
          trace := m.trace ++ [Event.deref b 0, Event.deref b 1, Event.deref b 2,
            Event.callback h 0 3, Event.deref b 3, Event.deref b 0, Event.callback h 3 2] } := by
  rw [scenario_first_run]
  simp [scenarioSecond, runOps, Op.run, Append.run,
    AddApplePencilEvent, ApplePencilManager.AddApplePencilEvent, AddApplePencilBarrelTapEvent,
    ApplePencilManager.AddApplePencilBarrelTapEvent, FlushApplePencilEvents,
    ApplePencilManager.FlushApplePencilEvents, advanceOffset, wrapInt, pendingCount, storeRecord]

/-- C11: after `SetApplePencilEventHandler` with a handler and a buffer of capacity 4, appending
three samples `A`, `B`, `C` and flushing invokes the handler with `(0, 3)` while slots 0, 1, 2 hold
`A`, `B`, `C`; appending then a sample `D` and a barrel tap and flushing invokes the handler with
`(3, 2)`, slot 3 holds `D`, slot 0 holds the barrel tap and no longer `A`, and both cursors end
at 1. -/
theorem C11_capacity_four_scenario (A B C D : SampleArgs) (m : Machine) (h b : Nat) :
    (runOps (scenarioFirst A B C) (SetApplePencilEventHandler (some h) (some b) 4 m)).trace
        = m.trace ++ [Event.deref b 0, Event.deref b 1, Event.deref b 2, Event.callback h 0 3]
      ∧ ((runOps (scenarioFirst A B C)
            (SetApplePencilEventHandler (some h) (some b) 4 m)).mem b 0).payload
          = (Append.sample A).payload
      ∧ ((runOps (scenarioFirst A B C)
            (SetApplePencilEventHandler (some h) (some b) 4 m)).mem b 1).payload
          = (Append.sample B).payload
      ∧ ((runOps (scenarioFirst A B C)
            (SetApplePencilEventHandler (some h) (some b) 4 m)).mem b 2).payload
          = (Append.sample C).payload
      ∧ (runOps (scenarioSecond D) (runOps (scenarioFirst A B C)
            (SetApplePencilEventHandler (some h) (some b) 4 m))).trace
          = (runOps (scenarioFirst A B C)
              (SetApplePencilEventHandler (some h) (some b) 4 m)).trace
            ++ [Event.deref b 3, Event.deref b 0, Event.callback h 3 2]
      ∧ ((runOps (scenarioSecond D) (runOps (scenarioFirst A B C)
            (SetApplePencilEventHandler (some h) (some b) 4 m))).mem b 3).payload
          = (Append.sample D).payload
      ∧ ((runOps (scenarioSecond D) (runOps (scenarioFirst A B C)
            (SetApplePencilEventHandler (some h) (some b) 4 m))).mem b 0).payload
          = Append.barrelTap.payload
      ∧ ((runOps (scenarioSecond D) (runOps (scenarioFirst A B C)
            (SetApplePencilEventHandler (some h) (some b) 4 m))).mem b 0).payload
          ≠ (Append.sample A).payload
      ∧ (runOps (scenarioSecond D) (runOps (scenarioFirst A B C)
            (SetApplePencilEventHandler (some h) (some b) 4 m))).mgr.bufferOffset = 1
      ∧ (runOps (scenarioSecond D) (runOps (scenarioFirst A B C)
            (SetApplePencilEventHandler (some h) (some b) 4 m))).mgr.lastNotifiedOffset = 1 := by
  have h2 := scenario_second_run A B C D m h b
  have h1 := scenario_first_run A B C m h b
  have hslot0 : ((runOps (scenarioSecond D) (runOps (scenarioFirst A B C)
      (SetApplePencilEventHandler (some h) (some b) 4 m))).mem b 0).payload
        = Append.barrelTap.payload := by
    rw [h2]
    simp only [storeRecord_same]
    exact writeBarrelTap_payload _
  refine ⟨by rw [h1], ?_, ?_, ?_, ?_, ?_, hslot0, ?_, by rw [h2], by rw [h2]⟩
  · rw [h1]
    simp only [storeRecord, and_true, true_and]
    simp [writeSample_payload]
  · rw [h1]
    simp only [storeRecord, and_true, true_and]
    simp [writeSample_payload]
  · rw [h1]
    simp only [storeRecord, and_true, true_and]
    simp [writeSample_payload]
  · rw [h2, h1]
    simp
  · rw [h2]
    simp only [storeRecord, and_true, true_and]
    simp [writeSample_payload]
  · rw [hslot0]
    exact tap_buttons_ne_sample A

/-! ## Registration, and who touches the buffer -/

theorem derefs_append (l1 l2 : List Event) : derefs (l1 ++ l2) = derefs l1 ++ derefs l2 := by
  induction l1 with
  | nil => rfl
  | cons e rest ih =>
    cases e <;> simp [derefs, ih]

theorem run_mgr_frame (ap : Append) (m : Machine) :
    (ap.run m).mgr.handler = m.mgr.handler ∧ (ap.run m).mgr.buffer = m.mgr.buffer
      ∧ (ap.run m).mgr.bufferLength = m.mgr.bufferLength
      ∧ (ap.run m).mgr.lastNotifiedOffset = m.mgr.lastNotifiedOffset := by
  by_cases h : m.mgr.buffer = none ∨ m.mgr.bufferLength = 0
  · rw [run_unregistered ap m h]
    exact ⟨rfl, rfl, rfl, rfl⟩
  · have hb : m.mgr.buffer ≠ none := fun hb => h (Or.inl hb)
    obtain ⟨b, hb⟩ := Option.ne_none_iff_exists'.mp hb
    rw [run_registered ap m b hb (fun hC => h (Or.inr hC))]
    exact ⟨rfl, rfl, rfl, rfl⟩

theorem flush_frame (m : Machine) :
    (FlushApplePencilEvents m).mem = m.mem
      ∧ derefs (FlushApplePencilEvents m).trace = derefs m.trace
      ∧ (FlushApplePencilEvents m).mgr.bufferOffset = m.mgr.bufferOffset
      ∧ (FlushApplePencilEvents m).mgr.bufferLength = m.mgr.bufferLength
      ∧ (FlushApplePencilEvents m).mgr.handler = m.mgr.handler
      ∧ (FlushApplePencilEvents m).mgr.buffer = m.mgr.buffer := by
  by_cases hidle : m.mgr.buffer = none ∨ m.mgr.bufferOffset = m.mgr.lastNotifiedOffset
      ∨ m.mgr.handler = none
  · rw [flush_idle m hidle]
    exact ⟨rfl, rfl, rfl, rfl, rfl, rfl⟩
  · have hb : m.mgr.buffer ≠ none := fun h => hidle (Or.inl h)
    have hne : m.mgr.bufferOffset ≠ m.mgr.lastNotifiedOffset := fun h => hidle (Or.inr (Or.inl h))
    have hh : m.mgr.handler ≠ none := fun h => hidle (Or.inr (Or.inr h))
    obtain ⟨b, hb⟩ := Option.ne_none_iff_exists'.mp hb
    obtain ⟨h, hh⟩ := Option.ne_none_iff_exists'.mp hh
    rw [flush_pending m b h hb hh hne]
    refine ⟨rfl, ?_, rfl, rfl, rfl, rfl⟩
    simp [derefs_append, derefs]

/-- C13: from every prior state, `SetApplePencilEventHandler(h, b, c)` yields the statics with
handler `h`, buffer `b`, capacity `c` and both cursors 0, the same whatever the prior state was
(pending records and an earlier registration included); and `UnsetApplePencilEventHandler` yields
from every prior state the initial statics: null handler, null buffer, capacity 0, cursors 0. -/
theorem C13_register_overwrites_unregister_clears (h b h2 b2 : Option Nat) (c c2 : Int)
    (m m2 : Machine) :
    (SetApplePencilEventHandler h b c m).mgr
        = { handler := h, buffer := b, bufferLength := c, bufferOffset := 0,
            lastNotifiedOffset := 0 }
      ∧ (SetApplePencilEventHandler h b c m).mgr = (SetApplePencilEventHandler h b c m2).mgr
      ∧ (SetApplePencilEventHandler h b c (SetApplePencilEventHandler h2 b2 c2 m)).mgr
          = (SetApplePencilEventHandler h b c m).mgr
      ∧ (UnsetApplePencilEventHandler m).mgr = ApplePencilManager.init
      ∧ (UnsetApplePencilEventHandler m).mgr
          = { handler := none, buffer := none, bufferLength := 0, bufferOffset := 0,
              lastNotifiedOffset := 0 } :=
  ⟨rfl, rfl, rfl, rfl, rfl⟩

/-- C14, refuted as stated: with a buffer of capacity 4 installed and a null handler,
`ApplePencilHandlerIsEnabled` reports false, yet `AddApplePencilEvent` and
`AddApplePencilBarrelTapEvent` write slot 0 and advance `bufferOffset` to 1. -/
theorem C14_append_writes_without_handler :
    ApplePencilHandlerIsEnabled (staleMachine noHandlerStatics) = false
      ∧ (AddApplePencilEvent sampleA (staleMachine noHandlerStatics)).mem 0 0
          ≠ (staleMachine noHandlerStatics).mem 0 0
      ∧ (AddApplePencilEvent sampleA (staleMachine noHandlerStatics)).mgr.bufferOffset = 1
      ∧ (staleMachine noHandlerStatics).mgr.bufferOffset = 0
      ∧ (AddApplePencilBarrelTapEvent (staleMachine noHandlerStatics)).mem 0 0
          ≠ (staleMachine noHandlerStatics).mem 0 0
      ∧ (AddApplePencilBarrelTapEvent (staleMachine noHandlerStatics)).mgr.bufferOffset = 1 := by
  decide

/-- C14, amended: in every state in which `ApplePencilHandlerIsEnabled` reports false,
`FlushApplePencilEvents` leaves the whole state unchanged, none of `AddApplePencilEvent`,
`AddApplePencilBarrelTapEvent` and `FlushApplePencilEvents` invokes a callback, the two append
functions leave `lastNotifiedOffset` unchanged, and they leave the buffer contents and
`bufferOffset` unchanged too when moreover the buffer reference is null or the capacity is 0. -/
theorem C14_no_handler_no_callback (a : SampleArgs) (m : Machine)
    (hoff : ApplePencilHandlerIsEnabled m = false) :
    FlushApplePencilEvents m = m
      ∧ callbacks (AddApplePencilEvent a m).trace = callbacks m.trace
      ∧ callbacks (AddApplePencilBarrelTapEvent m).trace = callbacks m.trace
      ∧ (AddApplePencilEvent a m).mgr.lastNotifiedOffset = m.mgr.lastNotifiedOffset
      ∧ (AddApplePencilBarrelTapEvent m).mgr.lastNotifiedOffset = m.mgr.lastNotifiedOffset
      ∧ (m.mgr.buffer = none ∨ m.mgr.bufferLength = 0 →
          AddApplePencilEvent a m = m ∧ AddApplePencilBarrelTapEvent m = m) := by
  have hh : m.mgr.handler = none := by
    simpa [ApplePencilHandlerIsEnabled] using hoff
  exact ⟨flush_idle m (Or.inr (Or.inr hh)), run_callbacks (Append.sample a) m,
    run_callbacks Append.barrelTap m, (run_mgr_frame (Append.sample a) m).2.2.2,
    (run_mgr_frame Append.barrelTap m).2.2.2,
    fun h => ⟨run_unregistered (Append.sample a) m h, run_unregistered Append.barrelTap m h⟩⟩

/-- Instance of the amended C14 on a state with a buffer and one pending record but no handler:
the flush changes nothing and the append invokes nothing. -/
theorem C14_no_handler_no_callback_witness :
    ApplePencilHandlerIsEnabled
        (AddApplePencilBarrelTapEvent (staleMachine noHandlerStatics)) = false
      ∧ FlushApplePencilEvents (AddApplePencilBarrelTapEvent (staleMachine noHandlerStatics))
          = AddApplePencilBarrelTapEvent (staleMachine noHandlerStatics)
      ∧ callbacks (AddApplePencilEvent sampleA
          (AddApplePencilBarrelTapEvent (staleMachine noHandlerStatics))).trace = [] := by
  have h := C14_no_handler_no_callback sampleA
    (AddApplePencilBarrelTapEvent (staleMachine noHandlerStatics)) (by decide)
  exact ⟨by decide, h.1, h.2.1.trans (by decide)⟩

/-- C15: for every state, `FlushApplePencilEvents`, `SetApplePencilEventHandler` and
`UnsetApplePencilEventHandler` leave every record of the memory unchanged and access no slot, and
`ApplePencilHandlerIsEnabled` only reads the handler member; `FlushApplePencilEvents` moreover
leaves `bufferOffset`, capacity, handler and buffer reference unchanged. -/
theorem C15_only_append_touches_buffer (h b : Option Nat) (c : Int) (m : Machine) :
    (FlushApplePencilEvents m).mem = m.mem
      ∧ derefs (FlushApplePencilEvents m).trace = derefs m.trace
      ∧ (SetApplePencilEventHandler h b c m).mem = m.mem
      ∧ (SetApplePencilEventHandler h b c m).trace = m.trace
      ∧ (UnsetApplePencilEventHandler m).mem = m.mem
      ∧ (UnsetApplePencilEventHandler m).trace = m.trace
      ∧ ApplePencilHandlerIsEnabled m = m.mgr.handler.isSome
      ∧ (FlushApplePencilEvents m).mgr.bufferOffset = m.mgr.bufferOffset
      ∧ (FlushApplePencilEvents m).mgr.bufferLength = m.mgr.bufferLength
      ∧ (FlushApplePencilEvents m).mgr.handler = m.mgr.handler
      ∧ (FlushApplePencilEvents m).mgr.buffer = m.mgr.buffer := by
  have hf := flush_frame m
  refine ⟨hf.1, hf.2.1, rfl, rfl, rfl, rfl, ?_, hf.2.2.1, hf.2.2.2.1, hf.2.2.2.2.1,
    hf.2.2.2.2.2⟩
  unfold ApplePencilHandlerIsEnabled
  cases m.mgr.handler <;> rfl

/-! ## Lapping, the append frame and the count bits -/

theorem flush_flush (m : Machine) :
    FlushApplePencilEvents (FlushApplePencilEvents m) = FlushApplePencilEvents m := by
  by_cases hidle : m.mgr.buffer = none ∨ m.mgr.bufferOffset = m.mgr.lastNotifiedOffset
      ∨ m.mgr.handler = none
  · rw [flush_idle m hidle, flush_idle m hidle]
  · have hb : m.mgr.buffer ≠ none := fun h => hidle (Or.inl h)
    have hh : m.mgr.handler ≠ none := fun h => hidle (Or.inr (Or.inr h))
    exact flush_idle _ (Or.inr (Or.inl (flush_cursors_equal m hb hh)))

/-- C16: for every registered state at rest (buffer and handler installed, capacity `C > 0` an
`int`, `bufferOffset = lastNotifiedOffset = L`, `0 ≤ L < C`) and every number `n` of appends, one
following flush invokes the handler with `(L, n mod C)` when `C` does not divide `n` and invokes
no handler when `C` divides `n`; so for `n > C` every reported count is strictly below `n`; in
both cases the cursors are equal afterwards and a further flush reports nothing. -/
theorem C16_lapping_under_reports (as : List Append) (m : Machine) (b h : Nat)
    (hb : m.mgr.buffer = some b) (hh : m.mgr.handler = some h)
    (hmax : m.mgr.bufferLength ≤ INT_MAX)
    (hrest : m.mgr.bufferOffset = m.mgr.lastNotifiedOffset)
    (hL0 : 0 ≤ m.mgr.lastNotifiedOffset) (hL : m.mgr.lastNotifiedOffset < m.mgr.bufferLength) :
    ((as.length : Int) % m.mgr.bufferLength ≠ 0 →
        (FlushApplePencilEvents (runAppends as m)).trace
          = (runAppends as m).trace ++ [Event.callback h m.mgr.lastNotifiedOffset
              ((as.length : Int) % m.mgr.bufferLength)])
      ∧ ((as.length : Int) % m.mgr.bufferLength = 0 →
          FlushApplePencilEvents (runAppends as m) = runAppends as m)
      ∧ callbacks (FlushApplePencilEvents (runAppends as m)).trace
          = callbacks m.trace ++
              (if (as.length : Int) % m.mgr.bufferLength = 0 then []
                else [(m.mgr.lastNotifiedOffset, (as.length : Int) % m.mgr.bufferLength)])
      ∧ (m.mgr.bufferLength < (as.length : Int) →
          (as.length : Int) % m.mgr.bufferLength < (as.length : Int))
      ∧ (FlushApplePencilEvents (runAppends as m)).mgr.bufferOffset
          = (FlushApplePencilEvents (runAppends as m)).mgr.lastNotifiedOffset
      ∧ FlushApplePencilEvents (FlushApplePencilEvents (runAppends as m))
          = FlushApplePencilEvents (runAppends as m) := by
  have hC : 0 < m.mgr.bufferLength := by omega
  have hw0 : 0 ≤ m.mgr.bufferOffset := by omega
  have hw : m.mgr.bufferOffset < m.mgr.bufferLength := by omega
  have hmgr := runAppends_mgr as m b hb hC hmax hw0 hw
  have hmax2 : m.mgr.bufferLength ≤ 2147483647 := hmax
  have hr0 : 0 ≤ (as.length : Int) % m.mgr.bufferLength := Int.emod_nonneg _ (by omega)
  have hr1 : (as.length : Int) % m.mgr.bufferLength < m.mgr.bufferLength :=
    Int.emod_lt_of_pos _ hC
  have hoff : (runAppends as m).mgr.bufferOffset
      = (m.mgr.lastNotifiedOffset + (as.length : Int) % m.mgr.bufferLength)
          % m.mgr.bufferLength := by
    rw [hmgr, hrest, Int.add_emod_emod]
  have hlast : (runAppends as m).mgr.lastNotifiedOffset = m.mgr.lastNotifiedOffset := by
    rw [hmgr]
  have hlen : (runAppends as m).mgr.bufferLength = m.mgr.bufferLength := by
    rw [hmgr]
  have hbuf : (runAppends as m).mgr.buffer = some b := by rw [hmgr]; exact hb
  have hhan : (runAppends as m).mgr.handler = some h := by rw [hmgr]; exact hh
  have hzero : (as.length : Int) % m.mgr.bufferLength = 0 →
      FlushApplePencilEvents (runAppends as m) = runAppends as m := by
    intro hz
    apply flush_idle
    right; left
    rw [hoff, hlast, hz, Int.add_zero]
    exact Int.emod_eq_of_lt hL0 hL
  have hnz : (as.length : Int) % m.mgr.bufferLength ≠ 0 →
      (FlushApplePencilEvents (runAppends as m)).trace
        = (runAppends as m).trace ++ [Event.callback h m.mgr.lastNotifiedOffset
            ((as.length : Int) % m.mgr.bufferLength)] := by
    intro hz
    have hne : (runAppends as m).mgr.bufferOffset ≠ (runAppends as m).mgr.lastNotifiedOffset := by
      rw [hoff, hlast]
      exact emod_offset_ne _ _ _ hL0 hL (by omega) hr1
    have hoff2 := emod_lt_two
      (m.mgr.lastNotifiedOffset + (as.length : Int) % m.mgr.bufferLength) m.mgr.bufferLength
      (by omega) (by omega)
    have hcount : pendingCount (runAppends as m).mgr.bufferLength
        (runAppends as m).mgr.bufferOffset (runAppends as m).mgr.lastNotifiedOffset
          = (as.length : Int) % m.mgr.bufferLength := by
      rw [hoff, hlast, hlen, hoff2]
      split
      · rw [pendingCount_exact_fwd _ _ _ (by omega)
          ⟨by unfold INT_MIN; omega, by unfold INT_MAX; omega⟩]
        omega
      · rw [pendingCount_exact_wrap _ _ _ (by omega)
          ⟨by unfold INT_MIN; omega, by unfold INT_MAX; omega⟩
          ⟨by unfold INT_MIN; omega, by unfold INT_MAX; omega⟩]
        omega
    rw [flush_pending (runAppends as m) b h hbuf hhan hne, hcount, hlast]
  refine ⟨hnz, hzero, ?_, ?_, ?_, flush_flush _⟩
  · by_cases hz : (as.length : Int) % m.mgr.bufferLength = 0
    · rw [hzero hz, if_pos hz, runAppends_callbacks, List.append_nil]
    · rw [hnz hz, if_neg hz, callbacks_append, runAppends_callbacks]
      rfl
  · intro hlt
    omega
  · exact flush_cursors_equal _ (by rw [hbuf]; simp) (by rw [hhan]; simp)

/-- Instance of C16: six appends on a length-4 buffer at rest in slot 3 are reported as
`(3, 6 mod 4)`, two records instead of six. -/
theorem C16_lapping_under_reports_witness :
    (staleMachine lastSlotStatics).mgr.buffer = some 0
      ∧ (staleMachine lastSlotStatics).mgr.handler = some 1
      ∧ (staleMachine lastSlotStatics).mgr.bufferLength < (sixAppends.length : Int)
      ∧ callbacks (FlushApplePencilEvents (runAppends sixAppends
          (staleMachine lastSlotStatics))).trace = [(3, 2)]
      ∧ (FlushApplePencilEvents (runAppends sixAppends
          (staleMachine lastSlotStatics))).mgr.bufferOffset
          = (FlushApplePencilEvents (runAppends sixAppends
              (staleMachine lastSlotStatics))).mgr.lastNotifiedOffset := by
  have h := C16_lapping_under_reports sixAppends (staleMachine lastSlotStatics) 0 1 rfl rfl
    (by decide) rfl (by decide) (by decide)
  exact ⟨rfl, rfl, by decide, h.2.2.1.trans (by decide), h.2.2.2.2.1⟩

/-- C19: with a buffer installed and a nonzero capacity, in particular with capacity `C > 0` and
write cursor `0 ≤ w < C`, an append call (`AddApplePencilEvent` or `AddApplePencilBarrelTapEvent`)
accesses slot `w = bufferOffset` only: every other record of the memory, and `lastNotifiedOffset`,
capacity, handler and buffer reference, are unchanged, and no callback is invoked. -/
theorem C19_append_changes_one_slot (ap : Append) (m : Machine) (b : Nat)
    (hb : m.mgr.buffer = some b) (hC : m.mgr.bufferLength ≠ 0) :
    (∀ (p : Nat) (j : Int), ¬ (p = b ∧ j = m.mgr.bufferOffset) →
        (ap.run m).mem p j = m.mem p j)
      ∧ (ap.run m).mgr.lastNotifiedOffset = m.mgr.lastNotifiedOffset
      ∧ (ap.run m).mgr.bufferLength = m.mgr.bufferLength
      ∧ (ap.run m).mgr.handler = m.mgr.handler
      ∧ (ap.run m).mgr.buffer = m.mgr.buffer
      ∧ (ap.run m).trace = m.trace ++ [Event.deref b m.mgr.bufferOffset]
      ∧ callbacks (ap.run m).trace = callbacks m.trace := by
  have hf := run_mgr_frame ap m
  refine ⟨?_, hf.2.2.2, hf.2.2.1, hf.1, hf.2.1, ?_, run_callbacks ap m⟩
  · intro p j hpj
    rw [run_registered ap m b hb hC]
    simp only [storeRecord, if_neg hpj]
  · rw [run_registered ap m b hb hC]

/-- Instance of C19 at the last slot of a length-4 buffer: the sample changes slot 3 and leaves
slot 0 and the notified cursor alone. -/
theorem C19_append_changes_one_slot_witness :
    (staleMachine lastSlotStatics).mgr.buffer = some 0
      ∧ (staleMachine lastSlotStatics).mgr.bufferLength ≠ 0
      ∧ (AddApplePencilEvent sampleA (staleMachine lastSlotStatics)).mem 0 3
          ≠ (staleMachine lastSlotStatics).mem 0 3
      ∧ (AddApplePencilEvent sampleA (staleMachine lastSlotStatics)).mem 0 0
          = (staleMachine lastSlotStatics).mem 0 0
      ∧ (AddApplePencilEvent sampleA (staleMachine lastSlotStatics)).mgr.lastNotifiedOffset
          = 3 := by
  have h := C19_append_changes_one_slot (Append.sample sampleA) (staleMachine lastSlotStatics) 0
    rfl (by decide)
  exact ⟨rfl, by decide, by decide, h.1 0 0 (by decide), h.2.1⟩

/-- C20: for every pending-estimate count `n` (counts of 16 and more included) and every tip,
estimation-update and predicted flag, the `buttons` value `AddApplePencilEvent` leaves in the
written slot is `tip + 2 * (n mod 16) + 32 * isEstimationUpdate + 64 * isPredicted`, at most 127:
the count is cut to its low four bits, and the tip, estimation-update and predicted bits decode
to the arguments while the barrel-tap bit stays clear. -/
theorem C20_count_truncated_to_four_bits (a : SampleArgs) (m : Machine) (b : Nat)
    (hb : m.mgr.buffer = some b) (hC : m.mgr.bufferLength ≠ 0) :
    ((AddApplePencilEvent a m).mem b m.mgr.bufferOffset).buttons
        = a.tip.toNat + 2 * (a.estimatedPropertiesExpectingUpdates % 16)
            + 32 * a.isEstimationUpdate.toNat + 64 * a.isPredicted.toNat
      ∧ ((AddApplePencilEvent a m).mem b m.mgr.bufferOffset).buttons ≤ 127
      ∧ buttonsTip ((AddApplePencilEvent a m).mem b m.mgr.bufferOffset).buttons = a.tip
      ∧ buttonsPendingCount ((AddApplePencilEvent a m).mem b m.mgr.bufferOffset).buttons
          = a.estimatedPropertiesExpectingUpdates % 16
      ∧ buttonsIsEstimationUpdate ((AddApplePencilEvent a m).mem b m.mgr.bufferOffset).buttons
          = a.isEstimationUpdate
      ∧ buttonsIsPredicted ((AddApplePencilEvent a m).mem b m.mgr.bufferOffset).buttons
          = a.isPredicted
      ∧ buttonsIsBarrelTap ((AddApplePencilEvent a m).mem b m.mgr.bufferOffset).buttons
          = false := by
  rw [add_event_slot a m b hb hC, writeSample_buttons]
  have hlt : a.estimatedPropertiesExpectingUpdates % 16 ≤ 15 := by omega
  have hd := packedButtons_decode a.tip a.isEstimationUpdate a.isPredicted _ hlt
  refine ⟨rfl, ?_, hd.1, hd.2.1, hd.2.2.1, hd.2.2.2.1, hd.2.2.2.2⟩
  unfold packedButtons
  have h1 : a.tip.toNat ≤ 1 := Bool.toNat_le _
  have h2 : a.isEstimationUpdate.toNat ≤ 1 := Bool.toNat_le _
  have h3 : a.isPredicted.toNat ≤ 1 := Bool.toNat_le _
  omega

/-- Instance of C20 with the count `2^32 - 1`: only its low four bits, 15, reach `buttons`. -/
theorem C20_count_truncated_to_four_bits_witness :
    (staleMachine lastSlotStatics).mgr.buffer = some 0
      ∧ (staleMachine lastSlotStatics).mgr.bufferLength ≠ 0
      ∧ ((AddApplePencilEvent sampleB (staleMachine lastSlotStatics)).mem 0 3).buttons = 62
      ∧ buttonsPendingCount
          ((AddApplePencilEvent sampleB (staleMachine lastSlotStatics)).mem 0 3).buttons = 15
      ∧ buttonsIsBarrelTap
          ((AddApplePencilEvent sampleB (staleMachine lastSlotStatics)).mem 0 3).buttons
          = false := by
  have h := C20_count_truncated_to_four_bits sampleB (staleMachine lastSlotStatics) 0 rfl
    (by decide)
  exact ⟨rfl, by decide, h.1.trans (by decide), h.2.2.2.1.trans (by decide), h.2.2.2.2.2.2⟩

end UnityApplePencil
